import Mathlib

/-!
Shallow embedding of the PackStream v1 codec from
`src/packages/neo4j-driver-deno/lib/bolt-connection/packstream/packstream-v1.js`
(the `Packer` and `Unpacker` classes), together with theorems checking the
specification's claims about it.

Modelling conventions:
* The channel consumed by the `Packer` is a list of bytes (`Ch`); each
  `write*` primitive appends the big-endian bytes it would send.
* The buffer consumed by the `Unpacker` is a list of bytes (`Buf`); reads
  consume from the front and fail with `UErr.outOfBounds` past the end.
* JavaScript values in the codec's domain are the inductive `Value`;
  `Value.undef` models the host's `undefined` sentinel, distinct from
  `Value.null`.
* Host doubles are carried as their 64-bit IEEE-754 pattern (`Value.float`);
  the codec never inspects the pattern, it only moves the 8 bytes.
* The external `Integer` (I64) helper and `newError` are not part of the
  excerpted sources; they are modelled from the spec (see the doc comments
  of `wrap64`, `highWord`, `lowWord`, `toNumberOrInfinityV`, `PErr`).
* Exceptions are modelled by explicit result types (`PRes`, `Except UErr`).
  A JavaScript `throw` mid-stream leaves the bytes already written, which
  `PRes.err` preserves in its channel argument.
* Both the packer and the unpacker take a fuel argument so that recursion
  through caller-supplied hooks and length-prefixed payloads is total; fuel
  exhaustion is a distinguished error that well-fuelled runs never hit.
-/

namespace PackStream

/-! ## Marker constants (packstream-v1.js lines 32-57) -/

def TINY_STRING : Nat := 0x80
def TINY_LIST : Nat := 0x90
def TINY_MAP : Nat := 0xa0
def TINY_STRUCT : Nat := 0xb0
def NULL : Nat := 0xc0
def FLOAT_64 : Nat := 0xc1
def FALSE : Nat := 0xc2
def TRUE : Nat := 0xc3
def INT_8 : Nat := 0xc8
def INT_16 : Nat := 0xc9
def INT_32 : Nat := 0xca
def INT_64 : Nat := 0xcb
def STRING_8 : Nat := 0xd0
def STRING_16 : Nat := 0xd1
def STRING_32 : Nat := 0xd2
def LIST_8 : Nat := 0xd4
def LIST_16 : Nat := 0xd5
def LIST_32 : Nat := 0xd6
def BYTES_8 : Nat := 0xcc
def BYTES_16 : Nat := 0xcd
def BYTES_32 : Nat := 0xce
def MAP_8 : Nat := 0xd8
def MAP_16 : Nat := 0xd9
def MAP_32 : Nat := 0xda
def STRUCT_8 : Nat := 0xdc
def STRUCT_16 : Nat := 0xdd

/-! ## Channel, errors, write primitives -/

/-- The byte channel the `Packer` writes to, as the list of bytes sent. -/
abbrev Ch := List Nat

/-- Errors thrown on the encode path.  `newError` is not in the excerpted
sources; per spec section 7 one error kind (`ProtocolError`) covers all codec
failures, so every `newError` call site is modelled as `protocolError` with
its message.  `hookError` is a rethrown exception from a caller-supplied
dehydration hook, and `fuelExhausted` is the embedding's fuel artifact. -/
inductive PErr where
  | protocolError (msg : String)
  | hookError (msg : String)
  | fuelExhausted
deriving DecidableEq

/-- Result of running an encode step on a channel: either success with the
new channel contents, or a thrown error together with the channel as already
written (a JS throw does not undo earlier writes). -/
inductive PRes (α : Type) where
  | ok (a : α) (ch : Ch)
  | err (e : PErr) (ch : Ch)
deriving DecidableEq

/-- A deferred write: what `packable` returns (the JS closure). -/
abbrev Closure := Ch → PRes Unit

/-- Sequencing of two deferred writes (`;` between statements). -/
def pseq (a b : Closure) : Closure := fun ch =>
  match a ch with
  | .ok _ ch1 => b ch1
  | .err e ch1 => .err e ch1

/-- A closure that only throws. -/
def pthrow (e : PErr) : Closure := fun ch => .err e ch

/-- Channel `writeUInt8`: send one byte (truncated to 8 bits). -/
def writeUInt8 (b : Nat) : Closure := fun ch => .ok () (ch ++ [b % 256])

/-- Channel `writeInt8`: one byte, two's complement. -/
def writeInt8 (v : Int) : Closure := fun ch => .ok () (ch ++ [(v % 256).toNat])

/-- Big-endian bytes of a 16-bit value. -/
def be2 (n : Nat) : List Nat := [n / 256 % 256, n % 256]

/-- Big-endian bytes of a 32-bit value. -/
def be4 (n : Nat) : List Nat :=
  [n / 16777216 % 256, n / 65536 % 256, n / 256 % 256, n % 256]

/-- Big-endian bytes of a 64-bit value. -/
def be8 (n : Nat) : List Nat := be4 (n / 4294967296) ++ be4 (n % 4294967296)

/-- Channel `writeInt16`: two bytes big-endian, two's complement. -/
def writeInt16 (v : Int) : Closure := fun ch => .ok () (ch ++ be2 (v % 65536).toNat)

/-- Channel `writeInt32`: four bytes big-endian, two's complement. -/
def writeInt32 (v : Int) : Closure := fun ch => .ok () (ch ++ be4 (v % 4294967296).toNat)

/-- Channel `writeFloat64`: the 8 bytes of an IEEE-754 binary64 pattern,
big-endian. -/
def writeFloat64 (bits : Nat) : Closure := fun ch =>
  .ok () (ch ++ be8 (bits % 18446744073709551616))

/-- Channel `writeBytes`: an opaque byte run. -/
def writeBytes (bs : List Nat) : Closure := fun ch => .ok () (ch ++ bs.map (· % 256))

/-! ## The value domain -/

/-- The JavaScript values the codec dispatches on, as a sum type:
`null`, booleans, host numbers (IEEE-754 bit pattern), `Integer` (I64)
instances carrying their 64-bit signed value, host big-integers, strings
(as their UTF-8 bytes; the external UTF-8 codec is modelled as the identity
on this representation), `Int8Array` byte arrays (signed bytes), arrays,
plain objects (ordered key/value association lists, as `Object.keys`
enumeration), `Structure` instances, and the `undefined` sentinel. -/
inductive Value where
  | null
  | bool (b : Bool)
  | float (bits : Nat)
  | int (i : Int)
  | bigintV (i : Int)
  | str (s : List Nat)
  | bytes (bs : List Int)
  | list (xs : List Value)
  | map (es : List (List Nat × Value))
  | struct (signature : Nat) (fields : List Value)
  | undef

/-- `x === undefined`? -/
def isUndef : Value → Bool
  | .undef => true
  | _ => false

/-- `isInt(x)`: is this an `Integer` instance? -/
def isIntV : Value → Bool
  | .int _ => true
  | _ => false

/-! ## The I64 helper (external collaborator)

Modelled from the spec: the `Integer` helper (spec section 6) is a lossless
64-bit signed carrier exposing the signed 32-bit words `high` and `low`,
a total order on the represented value, conversion to a host big-integer,
and conversion to a host double saturating to plus or minus infinity outside
the safely representable range. -/

/-- Modelled from the spec: the 64-bit signed value an `Integer` built from
an arbitrary integer represents (two's-complement wrap-around). -/
def wrap64 (i : Int) : Int :=
  (i + 9223372036854775808) % 18446744073709551616 - 9223372036854775808

/-- Reinterpret a `Nat` below `2^32` as a signed 32-bit word. -/
def toS32 (n : Nat) : Int := if n % 4294967296 < 2147483648 then (n % 4294967296 : Nat) else (n % 4294967296 : Nat) - 4294967296

/-- Modelled from the spec: the `high` signed 32-bit word of an I64. -/
def highWord (i : Int) : Int := toS32 ((i % 18446744073709551616).toNat / 4294967296)

/-- Modelled from the spec: the `low` signed 32-bit word of an I64. -/
def lowWord (i : Int) : Int := toS32 ((i % 18446744073709551616).toNat % 4294967296)

/-- The I64 value represented by a `(low, high)` pair of signed 32-bit words,
as built by `new Integer(low, high)`. -/
def valOf (low high : Int) : Int := high * 4294967296 + low % 4294967296

/-- IEEE-754 binary64 pattern of an integer with absolute value at most
`2^53 - 1` (such conversions are exact; larger inputs are never used). -/
def float64OfInt (i : Int) : Nat :=
  if i = 0 then 0
  else
    let n := i.natAbs
    let e := Nat.log2 n
    (if i < 0 then 9223372036854775808 else 0) + (1023 + e) * 4503599627370496 +
      (n * 4503599627370496 / 2 ^ e - 4503599627370496)

/-- IEEE-754 binary64 pattern of positive infinity. -/
def infinityBits : Nat := 0x7ff0000000000000

/-- IEEE-754 binary64 pattern of negative infinity. -/
def negInfinityBits : Nat := 0xfff0000000000000

/-- `Integer.prototype.toBigInt` applied to an unpacked value:
converts an I64 to the host big-integer of the same numeric value. -/
def toBigIntV : Value → Value
  | .int i => .bigintV i
  | v => v

/-- Modelled from the spec: `Integer.prototype.toNumberOrInfinity` applied to
an unpacked value: an I64 inside the safely representable range
`[-(2^53 - 1), 2^53 - 1]` becomes the host double of the same value, and
values outside it saturate to plus or minus infinity. -/
def toNumberOrInfinityV : Value → Value
  | .int i =>
      if i < -9007199254740991 then .float negInfinityBits
      else if 9007199254740991 < i then .float infinityBits
      else .float (float64OfInt i)
  | v => v

/-! ## Packer (packstream-v1.js lines 63-317) -/

/-- A dehydration hook: maps an application value to a codec value or
throws. The default `functional.identity` is `dId`. -/
abbrev DHook := Value → Except String Value

/-- The default dehydration hook (`functional.identity`). -/
def dId : DHook := fun v => .ok v

/-- `packInteger` (lines 163-183): width dispatch on the represented signed
value via the I64 comparisons, writing the `low` (and for INT_64 also the
`high`) signed word at the chosen width. -/
def packInteger (x : Int) : Closure :=
  let high := highWord x
  let low := lowWord x
  let v := wrap64 x
  if -16 ≤ v ∧ v < 128 then
    writeInt8 low
  else if -128 ≤ v ∧ v < -16 then
    pseq (writeUInt8 INT_8) (writeInt8 low)
  else if -32768 ≤ v ∧ v < 32768 then
    pseq (writeUInt8 INT_16) (writeInt16 low)
  else if -2147483648 ≤ v ∧ v < 2147483648 then
    pseq (writeUInt8 INT_32) (writeInt32 low)
  else
    pseq (writeUInt8 INT_64) (pseq (writeInt32 high) (writeInt32 low))

/-- `packFloat` (lines 185-188). -/
def packFloat (bits : Nat) : Closure :=
  pseq (writeUInt8 FLOAT_64) (writeFloat64 bits)

/-- `packString` (lines 190-215).  `utf8.encode` is the identity on the
byte-list representation of strings.  Note the 16-bit branch writes the high
size byte as `(size / 256) >> 0` with no `% 256` mask, exactly as the source
does. -/
def packString (x : List Nat) : Closure := fun ch =>
  let bytes := x
  let size := bytes.length
  if size < 0x10 then
    (pseq (writeUInt8 (TINY_STRING ||| size)) (writeBytes bytes)) ch
  else if size < 0x100 then
    (pseq (writeUInt8 STRING_8) (pseq (writeUInt8 size) (writeBytes bytes))) ch
  else if size < 0x10000 then
    (pseq (writeUInt8 STRING_16)
      (pseq (writeUInt8 (size / 256))
        (pseq (writeUInt8 (size % 256)) (writeBytes bytes)))) ch
  else if size < 0x100000000 then
    (pseq (writeUInt8 STRING_32)
      (pseq (writeUInt8 (size / 16777216 % 256))
        (pseq (writeUInt8 (size / 65536 % 256))
          (pseq (writeUInt8 (size / 256 % 256))
            (pseq (writeUInt8 (size % 256)) (writeBytes bytes)))))) ch
  else
    .err (.protocolError ("UTF-8 strings of size " ++ toString size ++ " are not supported")) ch

/-- `packListHeader` (lines 217-236).  The 16-bit branch here does carry the
`% 256` mask in the source. -/
def packListHeader (size : Nat) : Closure := fun ch =>
  if size < 0x10 then
    (writeUInt8 (TINY_LIST ||| size)) ch
  else if size < 0x100 then
    (pseq (writeUInt8 LIST_8) (writeUInt8 size)) ch
  else if size < 0x10000 then
    (pseq (writeUInt8 LIST_16)
      (pseq (writeUInt8 (size / 256 % 256)) (writeUInt8 (size % 256)))) ch
  else if size < 0x100000000 then
    (pseq (writeUInt8 LIST_32)
      (pseq (writeUInt8 (size / 16777216 % 256))
        (pseq (writeUInt8 (size / 65536 % 256))
          (pseq (writeUInt8 (size / 256 % 256)) (writeUInt8 (size % 256)))))) ch
  else
    .err (.protocolError ("Lists of size " ++ toString size ++ " are not supported")) ch

/-- `packBytesHeader` (lines 251-268). -/
def packBytesHeader (size : Nat) : Closure := fun ch =>
  if size < 0x100 then
    (pseq (writeUInt8 BYTES_8) (writeUInt8 size)) ch
  else if size < 0x10000 then
    (pseq (writeUInt8 BYTES_16)
      (pseq (writeUInt8 (size / 256 % 256)) (writeUInt8 (size % 256)))) ch
  else if size < 0x100000000 then
    (pseq (writeUInt8 BYTES_32)
      (pseq (writeUInt8 (size / 16777216 % 256))
        (pseq (writeUInt8 (size / 65536 % 256))
          (pseq (writeUInt8 (size / 256 % 256)) (writeUInt8 (size % 256)))))) ch
  else
    .err (.protocolError ("Byte arrays of size " ++ toString size ++ " are not supported")) ch

/-- The per-element writes of `packBytes`: `writeInt8` on each array entry. -/
def writeInt8List : List Int → Closure
  | [] => fun ch => .ok () ch
  | b :: bs => pseq (writeInt8 b) (writeInt8List bs)

/-- `packBytes` (lines 238-249): gated on the packer's
`_byteArraysSupported` flag, which is passed explicitly. -/
def packBytes (byteArraysSupported : Bool) (array : List Int) : Closure := fun ch =>
  if byteArraysSupported then
    (pseq (packBytesHeader array.length) (writeInt8List array)) ch
  else
    .err (.protocolError "Byte arrays are not supported by the database this driver is connected to") ch

/-- `packMapHeader` (lines 270-289).  As in the source, the 16-bit branch
writes the high size byte as `(size / 256) >> 0` with no `% 256` mask. -/
def packMapHeader (size : Nat) : Closure := fun ch =>
  if size < 0x10 then
    (writeUInt8 (TINY_MAP ||| size)) ch
  else if size < 0x100 then
    (pseq (writeUInt8 MAP_8) (writeUInt8 size)) ch
  else if size < 0x10000 then
    (pseq (writeUInt8 MAP_16)
      (pseq (writeUInt8 (size / 256)) (writeUInt8 (size % 256)))) ch
  else if size < 0x100000000 then
    (pseq (writeUInt8 MAP_32)
      (pseq (writeUInt8 (size / 16777216 % 256))
        (pseq (writeUInt8 (size / 65536 % 256))
          (pseq (writeUInt8 (size / 256 % 256)) (writeUInt8 (size % 256)))))) ch
  else
    .err (.protocolError ("Maps of size " ++ toString size ++ " are not supported")) ch

/-- `packStructHeader` (lines 291-306).  The tiny and `STRUCT_8` branches
write the signature byte after the size; the `STRUCT_16` branch writes only
the marker and the two size bytes, with no signature byte, exactly as the
source does. -/
def packStructHeader (size : Nat) (signature : Nat) : Closure := fun ch =>
  if size < 0x10 then
    (pseq (writeUInt8 (TINY_STRUCT ||| size)) (writeUInt8 signature)) ch
  else if size < 0x100 then
    (pseq (writeUInt8 STRUCT_8) (pseq (writeUInt8 size) (writeUInt8 signature))) ch
  else if size < 0x10000 then
    (pseq (writeUInt8 STRUCT_16)
      (pseq (writeUInt8 (size / 256)) (writeUInt8 (size % 256)))) ch
  else
    .err (.protocolError ("Structures of size " ++ toString size ++ " are not supported")) ch

/-- Run a list of field closures in order (the loop body of `packStruct`). -/
def runClosures : List Closure → Closure
  | [] => fun ch => .ok () ch
  | c :: cs => pseq c (runClosures cs)

/-- `packStruct` (lines 155-161): header from the number of prepared field
closures, then each field closure in order. -/
def packStruct (signature : Nat) (packableFields : List Closure) : Closure :=
  pseq (packStructHeader packableFields.length signature) (runClosures packableFields)

/-- `disableByteArrays` (lines 308-310): clears the packer's flag. -/
def disableByteArrays (_byteArraysSupported : Bool) : Bool := false

/-- Number of object entries whose value is not `undefined` (the counting
loop of the map branch, lines 120-125). -/
def countDefined (es : List (List Nat × Value)) : Nat :=
  (es.filter (fun p => !isUndef p.2)).length

mutual

/-- `packable` (lines 78-138): applies the dehydration hook, then returns a
pair of the channel after the `packable` call itself (it performs no writes;
the struct branch eagerly prepares per-field closures) and the closure that,
when invoked, writes the encoding.  A hook exception is not raised here but
deferred into the returned closure.  `packElems` is the list-branch loop
(with its `undefined` to null substitution), `packPairs` the map-branch
pair-writing loop, and `packFields` the eager struct-field preparation
loop. -/
def packable (fuel : Nat) (byteArraysSupported : Bool) (dehydrateStruct : DHook)
    (x : Value) (ch : Ch) : Ch × Closure :=
  match fuel with
  | 0 => (ch, pthrow .fuelExhausted)
  | fuel + 1 =>
    match dehydrateStruct x with
    | .error ex => (ch, pthrow (.hookError ex))
    | .ok y =>
      match y with
      | .null => (ch, writeUInt8 NULL)
      | .bool true => (ch, writeUInt8 TRUE)
      | .bool false => (ch, writeUInt8 FALSE)
      | .float bits => (ch, packFloat bits)
      | .str s => (ch, packString s)
      | .bigintV i => (ch, packInteger i)
      | .int i => (ch, packInteger i)
      | .bytes arr => (ch, packBytes byteArraysSupported arr)
      | .list xs => (ch, fun c =>
          match packListHeader xs.length c with
          | .ok _ c1 => packElems fuel byteArraysSupported dehydrateStruct xs c1
          | .err e c1 => .err e c1)
      | .struct sig fields =>
          let r := packFields fuel byteArraysSupported dehydrateStruct fields ch
          (r.1, packStruct sig r.2)
      | .map es => (ch, fun c =>
          match packMapHeader (countDefined es) c with
          | .ok _ c1 => packPairs fuel byteArraysSupported dehydrateStruct es c1
          | .err e c1 => .err e c1)
      | .undef => (ch, pthrow (.protocolError "Unable to pack the given value: undefined"))

/-- The list-branch loop of `packable` (lines 102-107): each element is
packed and immediately written, with `undefined` elements substituted by
null.  Fuel is consumed per iteration (an embedding artifact; any
sufficiently large fuel gives the loop's behaviour). -/
def packElems (fuel : Nat) (byteArraysSupported : Bool) (dehydrateStruct : DHook)
    (xs : List Value) (c : Ch) : PRes Unit :=
  match fuel with
  | 0 => .err .fuelExhausted c
  | fuel + 1 =>
    match xs with
    | [] => .ok () c
    | e :: es =>
      let r := packable fuel byteArraysSupported dehydrateStruct
        (if isUndef e then .null else e) c
      match r.2 r.1 with
      | .ok _ c2 => packElems fuel byteArraysSupported dehydrateStruct es c2
      | .err er c2 => .err er c2

/-- The map-branch pair-writing loop of `packable` (lines 127-133): entries
with `undefined` values are skipped; for the rest the key is written with
`packString` and the value is packed and immediately written. -/
def packPairs (fuel : Nat) (byteArraysSupported : Bool) (dehydrateStruct : DHook)
    (es : List (List Nat × Value)) (c : Ch) : PRes Unit :=
  match fuel with
  | 0 => .err .fuelExhausted c
  | fuel + 1 =>
    match es with
    | [] => .ok () c
    | (k, v) :: es =>
      if isUndef v then packPairs fuel byteArraysSupported dehydrateStruct es c
      else
        match packString k c with
        | .ok _ c1 =>
          let r := packable fuel byteArraysSupported dehydrateStruct v c1
          match r.2 r.1 with
          | .ok _ c2 => packPairs fuel byteArraysSupported dehydrateStruct es c2
          | .err er c2 => .err er c2
        | .err er c1 => .err er c1

/-- The struct-branch preparation loop of `packable` (lines 111-114): the
per-field closures are built eagerly, threading the channel of the enclosing
`packable` call (which none of them touches). -/
def packFields (fuel : Nat) (byteArraysSupported : Bool) (dehydrateStruct : DHook)
    (fs : List Value) (ch : Ch) : Ch × List Closure :=
  match fuel with
  | 0 => (ch, [pthrow .fuelExhausted])
  | fuel + 1 =>
    match fs with
    | [] => (ch, [])
    | f :: fs =>
      let r := packable fuel byteArraysSupported dehydrateStruct f ch
      let rs := packFields fuel byteArraysSupported dehydrateStruct fs r.1
      (rs.1, r.2 :: rs.2)

end

/-! ## Unpacker (packstream-v1.js lines 323-538) -/

/-- The byte buffer the `Unpacker` reads from; reads consume from the
front. -/
abbrev Buf := List Nat

/-- Errors raised on the decode path: the unknown-marker protocol error of
`unpack` (line 385), the no-integer-marker error of `unpackInteger`
(lines 391-395), an out-of-range buffer read (raised by the external
`ByteBuffer`, spec section 6), a rethrown hydration-hook exception, and the
embedding's fuel artifact. -/
inductive UErr where
  | unknownMarker (m : Nat)
  | unknownIntMarker (m : Nat)
  | outOfBounds
  | hookError (msg : String)
  | fuelExhausted
deriving DecidableEq

/-- Render a decode error as the message the source would attach; the
unknown-marker message carries the marker in hexadecimal
(`marker.toString(16)`). -/
def renderUErr : UErr → String
  | .unknownMarker m => "Unknown packed value with marker " ++ (Nat.toDigits 16 m).asString
  | .unknownIntMarker m => "Unable to unpack integer value with marker " ++ (Nat.toDigits 16 m).asString
  | .outOfBounds => "Out of bounds read"
  | .hookError msg => msg
  | .fuelExhausted => "fuel exhausted"

/-- A hydration hook: maps a decoded `Structure` to an application value or
throws.  The default `functional.identity` is `hId`. -/
abbrev HHook := Value → Except String Value

/-- The default hydration hook (`functional.identity`). -/
def hId : HHook := fun v => .ok v

/-- Buffer `readUInt8`. -/
def readUInt8 : Buf → Except UErr (Nat × Buf)
  | [] => .error .outOfBounds
  | b :: r => .ok (b, r)

/-- Read `n` raw bytes from the buffer. -/
def readN (n : Nat) (buf : Buf) : Except UErr (List Nat × Buf) :=
  if n ≤ buf.length then .ok (buf.take n, buf.drop n) else .error .outOfBounds

/-- Big-endian value of a byte run. -/
def beVal (l : List Nat) : Nat := l.foldl (fun a b => a * 256 + b) 0

/-- Reinterpret a byte as a signed 8-bit value. -/
def toS8 (n : Nat) : Int := if n < 128 then (n : Int) else (n : Int) - 256

/-- Reinterpret a 16-bit value as signed. -/
def toS16 (n : Nat) : Int := if n < 32768 then (n : Int) else (n : Int) - 65536

/-- Buffer `readInt8`. -/
def readInt8 (buf : Buf) : Except UErr (Int × Buf) :=
  match readUInt8 buf with
  | .ok (b, r) => .ok (toS8 b, r)
  | .error e => .error e

/-- Buffer `readUInt16`: two bytes big-endian. -/
def readUInt16 (buf : Buf) : Except UErr (Nat × Buf) :=
  match readN 2 buf with
  | .ok (bs, r) => .ok (beVal bs, r)
  | .error e => .error e

/-- Buffer `readInt16`. -/
def readInt16 (buf : Buf) : Except UErr (Int × Buf) :=
  match readUInt16 buf with
  | .ok (n, r) => .ok (toS16 n, r)
  | .error e => .error e

/-- Buffer `readUInt32`: four bytes big-endian. -/
def readUInt32 (buf : Buf) : Except UErr (Nat × Buf) :=
  match readN 4 buf with
  | .ok (bs, r) => .ok (beVal bs, r)
  | .error e => .error e

/-- Buffer `readInt32`. -/
def readInt32 (buf : Buf) : Except UErr (Int × Buf) :=
  match readUInt32 buf with
  | .ok (n, r) => .ok (toS32 n, r)
  | .error e => .error e

/-- Buffer `readFloat64`: eight bytes big-endian, returned as the IEEE-754
bit pattern. -/
def readFloat64 (buf : Buf) : Except UErr (Nat × Buf) :=
  match readN 8 buf with
  | .ok (bs, r) => .ok (beVal bs, r)
  | .error e => .error e

/-- `_unpackBoolean` (lines 399-407). -/
def unpackBoolean (marker : Nat) : Option Bool :=
  if marker = TRUE then some true
  else if marker = FALSE then some false
  else none

/-- `_unpackInteger` (lines 417-436): `none` when the marker selects no
integer form (with the buffer untouched). -/
def unpackInteger (marker : Nat) (buf : Buf) : Except UErr (Option Value × Buf) :=
  if marker < 128 then .ok (some (.int marker), buf)
  else if 240 ≤ marker ∧ marker < 256 then .ok (some (.int ((marker : Int) - 256)), buf)
  else if marker = INT_8 then
    match readInt8 buf with
    | .ok (v, r) => .ok (some (.int v), r)
    | .error e => .error e
  else if marker = INT_16 then
    match readInt16 buf with
    | .ok (v, r) => .ok (some (.int v), r)
    | .error e => .error e
  else if marker = INT_32 then
    match readInt32 buf with
    | .ok (b, r) => .ok (some (.int b), r)
    | .error e => .error e
  else if marker = INT_64 then
    match readInt32 buf with
    | .ok (high, r1) =>
      match readInt32 r1 with
      | .ok (low, r2) => .ok (some (.int (valOf low high)), r2)
      | .error e => .error e
    | .error e => .error e
  else .ok (none, buf)

/-- `_unpackNumberOrInteger` (lines 409-415). -/
def unpackNumberOrInteger (marker : Nat) (buf : Buf) : Except UErr (Option Value × Buf) :=
  if marker = FLOAT_64 then
    match readFloat64 buf with
    | .ok (bits, r) => .ok (some (.float bits), r)
    | .error e => .error e
  else unpackInteger marker buf

/-- `_unpackString` (lines 438-450); `utf8.decode` reads the stated number
of bytes and is the identity on the byte-list representation. -/
def unpackString (marker markerHigh markerLow : Nat) (buf : Buf) :
    Except UErr (Option (List Nat) × Buf) :=
  if markerHigh = TINY_STRING then
    match readN markerLow buf with
    | .ok (bs, r) => .ok (some bs, r)
    | .error e => .error e
  else if marker = STRING_8 then
    match readUInt8 buf with
    | .ok (n, r) =>
      match readN n r with
      | .ok (bs, r2) => .ok (some bs, r2)
      | .error e => .error e
    | .error e => .error e
  else if marker = STRING_16 then
    match readUInt16 buf with
    | .ok (n, r) =>
      match readN n r with
      | .ok (bs, r2) => .ok (some bs, r2)
      | .error e => .error e
    | .error e => .error e
  else if marker = STRING_32 then
    match readUInt32 buf with
    | .ok (n, r) =>
      match readN n r with
      | .ok (bs, r2) => .ok (some bs, r2)
      | .error e => .error e
    | .error e => .error e
  else .ok (none, buf)

/-- The size-reading part of `_unpackList` (lines 452-464): which list form
the marker selects and its element count; the recursive element loop is
`unpackListWithSize`. -/
def unpackListSize (marker markerHigh markerLow : Nat) (buf : Buf) :
    Except UErr (Option (Nat × Buf)) :=
  if markerHigh = TINY_LIST then .ok (some (markerLow, buf))
  else if marker = LIST_8 then
    match readUInt8 buf with
    | .ok (n, r) => .ok (some (n, r))
    | .error e => .error e
  else if marker = LIST_16 then
    match readUInt16 buf with
    | .ok (n, r) => .ok (some (n, r))
    | .error e => .error e
  else if marker = LIST_32 then
    match readUInt32 buf with
    | .ok (n, r) => .ok (some (n, r))
    | .error e => .error e
  else .ok none

/-- `_unpackByteArrayWithSize` (lines 486-492): `size` signed byte reads. -/
def unpackByteArrayWithSize (size : Nat) (buf : Buf) : Except UErr (List Int × Buf) :=
  match readN size buf with
  | .ok (bs, r) => .ok (bs.map toS8, r)
  | .error e => .error e

/-- `_unpackByteArray` (lines 474-484). -/
def unpackByteArray (marker : Nat) (buf : Buf) : Except UErr (Option (List Int) × Buf) :=
  if marker = BYTES_8 then
    match readUInt8 buf with
    | .ok (n, r) =>
      match unpackByteArrayWithSize n r with
      | .ok (bs, r2) => .ok (some bs, r2)
      | .error e => .error e
    | .error e => .error e
  else if marker = BYTES_16 then
    match readUInt16 buf with
    | .ok (n, r) =>
      match unpackByteArrayWithSize n r with
      | .ok (bs, r2) => .ok (some bs, r2)
      | .error e => .error e
    | .error e => .error e
  else if marker = BYTES_32 then
    match readUInt32 buf with
    | .ok (n, r) =>
      match unpackByteArrayWithSize n r with
      | .ok (bs, r2) => .ok (some bs, r2)
      | .error e => .error e
    | .error e => .error e
  else .ok (none, buf)

/-- The size-reading part of `_unpackMap` (lines 494-506). -/
def unpackMapSize (marker markerHigh markerLow : Nat) (buf : Buf) :
    Except UErr (Option (Nat × Buf)) :=
  if markerHigh = TINY_MAP then .ok (some (markerLow, buf))
  else if marker = MAP_8 then
    match readUInt8 buf with
    | .ok (n, r) => .ok (some (n, r))
    | .error e => .error e
  else if marker = MAP_16 then
    match readUInt16 buf with
    | .ok (n, r) => .ok (some (n, r))
    | .error e => .error e
  else if marker = MAP_32 then
    match readUInt32 buf with
    | .ok (n, r) => .ok (some (n, r))
    | .error e => .error e
  else .ok none

/-- The size-reading part of `_unpackStruct` (lines 517-527); note there is
no 32-bit struct form. -/
def unpackStructSize (marker markerHigh markerLow : Nat) (buf : Buf) :
    Except UErr (Option (Nat × Buf)) :=
  if markerHigh = TINY_STRUCT then .ok (some (markerLow, buf))
  else if marker = STRUCT_8 then
    match readUInt8 buf with
    | .ok (n, r) => .ok (some (n, r))
    | .error e => .error e
  else if marker = STRUCT_16 then
    match readUInt16 buf with
    | .ok (n, r) => .ok (some (n, r))
    | .error e => .error e
  else .ok none

/-- The property key a decoded map key collapses to (`value[key] = ...`):
strings are used as-is; non-string keys go through host string coercion,
which the codec leaves implementation-defined (spec section 4.3). -/
def keyOf : Value → List Nat
  | .str s => s
  | _ => []

/-- JavaScript object property assignment `value[key] = v` on an ordered
association list: overwrite in place if the key exists, else append. -/
def objInsert (k : List Nat) (v : Value) : List (List Nat × Value) → List (List Nat × Value)
  | [] => [(k, v)]
  | (k1, v1) :: r => if k1 = k then (k1, v) :: r else (k1, v1) :: objInsert k v r

mutual

/-- `unpack` (lines 334-386): read the marker byte, then try the
interpretations in source order (Null, Boolean, Float-or-Integer with the
integer-policy flags, String, List, Bytes, Map, Structure) and raise the
unknown-marker protocol error when none matches. -/
def unpack (fuel : Nat) (disableLosslessIntegers useBigInt : Bool)
    (hydrateStructure : HHook) (buffer : Buf) : Except UErr (Value × Buf) :=
  match fuel with
  | 0 => .error .fuelExhausted
  | fuel + 1 =>
    match readUInt8 buffer with
    | .error e => .error e
    | .ok (marker, buf) =>
      let markerHigh := marker &&& 0xf0
      let markerLow := marker &&& 0x0f
      if marker = NULL then .ok (.null, buf)
      else
        match unpackBoolean marker with
        | some b => .ok (.bool b, buf)
        | none =>
          match unpackNumberOrInteger marker buf with
          | .error e => .error e
          | .ok (some v, buf1) =>
            if isIntV v then
              if useBigInt then .ok (toBigIntV v, buf1)
              else if disableLosslessIntegers then .ok (toNumberOrInfinityV v, buf1)
              else .ok (v, buf1)
            else .ok (v, buf1)
          | .ok (none, buf1) =>
            match unpackString marker markerHigh markerLow buf1 with
            | .error e => .error e
            | .ok (some s, buf2) => .ok (.str s, buf2)
            | .ok (none, buf2) =>
              match unpackListSize marker markerHigh markerLow buf2 with
              | .error e => .error e
              | .ok (some (size, buf3)) =>
                match unpackListWithSize fuel disableLosslessIntegers useBigInt
                    hydrateStructure size buf3 with
                | .ok (xs, buf4) => .ok (.list xs, buf4)
                | .error e => .error e
              | .ok none =>
                match unpackByteArray marker buf2 with
                | .error e => .error e
                | .ok (some bs, buf3) => .ok (.bytes bs, buf3)
                | .ok (none, buf3) =>
                  match unpackMapSize marker markerHigh markerLow buf3 with
                  | .error e => .error e
                  | .ok (some (size, buf4)) =>
                    match unpackMapWithSize fuel disableLosslessIntegers useBigInt
                        hydrateStructure size [] buf4 with
                    | .ok (es, buf5) => .ok (.map es, buf5)
                    | .error e => .error e
                  | .ok none =>
                    match unpackStructSize marker markerHigh markerLow buf3 with
                    | .error e => .error e
                    | .ok (some (size, buf4)) =>
                      unpackStructWithSize fuel disableLosslessIntegers useBigInt
                        hydrateStructure size buf4
                    | .ok none => .error (.unknownMarker marker)

/-- `_unpackListWithSize` (lines 466-472): `size` recursive `unpack` calls
collected in order (also the field loop of `_unpackStructWithSize`).  Fuel
is consumed per iteration (an embedding artifact; any sufficiently large
fuel gives the loop's behaviour). -/
def unpackListWithSize (fuel : Nat) (disableLosslessIntegers useBigInt : Bool)
    (hydrateStructure : HHook) (size : Nat) (buf : Buf) :
    Except UErr (List Value × Buf) :=
  match fuel with
  | 0 => .error .fuelExhausted
  | fuel + 1 =>
    match size with
    | 0 => .ok ([], buf)
    | size + 1 =>
      match unpack fuel disableLosslessIntegers useBigInt hydrateStructure buf with
      | .error e => .error e
      | .ok (v, buf1) =>
        match unpackListWithSize fuel disableLosslessIntegers useBigInt
            hydrateStructure size buf1 with
        | .ok (vs, buf2) => .ok (v :: vs, buf2)
        | .error e => .error e

/-- `_unpackMapWithSize` (lines 508-515): `size` iterations of
key-then-value decoding assigned into an initially empty object (passed as
the accumulator). -/
def unpackMapWithSize (fuel : Nat) (disableLosslessIntegers useBigInt : Bool)
    (hydrateStructure : HHook) (size : Nat) (value : List (List Nat × Value))
    (buf : Buf) : Except UErr (List (List Nat × Value) × Buf) :=
  match fuel with
  | 0 => .error .fuelExhausted
  | fuel + 1 =>
    match size with
    | 0 => .ok (value, buf)
    | size + 1 =>
      match unpack fuel disableLosslessIntegers useBigInt hydrateStructure buf with
      | .error e => .error e
      | .ok (key, buf1) =>
        match unpack fuel disableLosslessIntegers useBigInt hydrateStructure buf1 with
        | .error e => .error e
        | .ok (v, buf2) =>
          unpackMapWithSize fuel disableLosslessIntegers useBigInt hydrateStructure
            size (objInsert (keyOf key) v value) buf2

/-- `_unpackStructWithSize` (lines 529-537): read the signature byte, then
`structSize` recursive field decodes, then pass the `Structure` through the
hydration hook (a hook exception propagates immediately). -/
def unpackStructWithSize (fuel : Nat) (disableLosslessIntegers useBigInt : Bool)
    (hydrateStructure : HHook) (structSize : Nat) (buf : Buf) :
    Except UErr (Value × Buf) :=
  match fuel with
  | 0 => .error .fuelExhausted
  | fuel + 1 =>
    match readUInt8 buf with
    | .error e => .error e
    | .ok (signature, buf1) =>
      match unpackListWithSize fuel disableLosslessIntegers useBigInt hydrateStructure
          structSize buf1 with
      | .error e => .error e
      | .ok (fields, buf2) =>
        match hydrateStructure (.struct signature fields) with
        | .ok v => .ok (v, buf2)
        | .error ex => .error (.hookError ex)

end

/-! ## Domain predicates, measures, and spec-side descriptions -/

/-- Well-formed string payload: bytes below 256, length below `2^32`
(spec section 6, maximum sizes). -/
def wfStr (s : List Nat) : Bool :=
  decide (s.length < 4294967296) && s.all (· < 256)

mutual

/-- The round-trippable domain: values the encoder accepts whose encodings
decode back (all sizes within the encoder's bounds, map keys distinct
strings, struct signatures one byte, and struct field counts below 256 so
the `STRUCT_8`/tiny forms are used).  `undefined` is permitted only as a
list element or a map entry value, where the encoder substitutes or drops
it. -/
def rtB : Value → Bool
  | .null => true
  | .bool _ => true
  | .float bits => decide (bits < 18446744073709551616)
  | .int i => decide (-9223372036854775808 ≤ i) && decide (i < 9223372036854775808)
  | .bigintV _ => false
  | .str s => wfStr s
  | .bytes bs =>
      decide (bs.length < 4294967296) &&
      bs.all (fun b => decide (-128 ≤ b) && decide (b < 128))
  | .list xs => decide (xs.length < 4294967296) && rtElems xs
  | .map es =>
      decide (es.length < 4294967296) &&
      decide ((es.map Prod.fst).Nodup) && rtPairs es
  | .struct sig fs => decide (sig < 256) && decide (fs.length < 256) && rtFields fs
  | .undef => false

/-- Round-trippable list elements (`undefined` allowed). -/
def rtElems : List Value → Bool
  | [] => true
  | x :: xs => (isUndef x || rtB x) && rtElems xs

/-- Round-trippable map entries (`undefined` values allowed; keys
well-formed strings). -/
def rtPairs : List (List Nat × Value) → Bool
  | [] => true
  | (k, v) :: es => wfStr k && (isUndef v || rtB v) && rtPairs es

/-- Round-trippable struct fields (`undefined` not allowed: the encoder
rejects it there). -/
def rtFields : List Value → Bool
  | [] => true
  | f :: fs => rtB f && rtFields fs

end

mutual

/-- No `undefined` anywhere inside the value. -/
def noUndefB : Value → Bool
  | .list xs => noUndefL xs
  | .map es => noUndefP es
  | .struct _ fs => noUndefL fs
  | .undef => false
  | _ => true

def noUndefL : List Value → Bool
  | [] => true
  | x :: xs => noUndefB x && noUndefL xs

def noUndefP : List (List Nat × Value) → Bool
  | [] => true
  | (_, v) :: es => noUndefB v && noUndefP es

end

mutual

/-- The decoded image of an encodable value under default unpacker flags
and identity hooks: `undefined` list elements become null, map entries with
`undefined` values disappear, everything else is preserved. -/
def D : Value → Value
  | .list xs => .list (DElems xs)
  | .map es => .map (DPairs es)
  | .struct sig fs => .struct sig (DFields fs)
  | v => v

def DElems : List Value → List Value
  | [] => []
  | x :: xs => (if isUndef x then .null else D x) :: DElems xs

def DPairs : List (List Nat × Value) → List (List Nat × Value)
  | [] => []
  | (k, v) :: es => if isUndef v then DPairs es else (k, D v) :: DPairs es

def DFields : List Value → List Value
  | [] => []
  | f :: fs => D f :: DFields fs

end

mutual

/-- Fuel requirement of a value: any fuel at least this large makes both the
packer and the unpacker run the value to completion (fuel is consumed once
per recursive call in the embedding). -/
def dN : Value → Nat
  | .list xs => dNL xs + 1
  | .map es => dNP es + 1
  | .struct _ fs => dNF fs + 2
  | _ => 1

def dNL : List Value → Nat
  | [] => 1
  | x :: xs => max (dN x) (dNL xs) + 1

def dNP : List (List Nat × Value) → Nat
  | [] => 1
  | (_, v) :: es => max (dN v) (dNP es) + 1

def dNF : List Value → Nat
  | [] => 1
  | f :: fs => max (dN f) (dNF fs) + 1

end

/-- The claim's description of integer width selection (spec section 4.2):
the narrowest form whose range contains the value, with payload bytes in
two's complement big-endian, and for `INT_64` the high then the low 32-bit
word. -/
def packIntegerSpec (v : Int) : List Nat :=
  if -16 ≤ v ∧ v < 128 then [(v % 256).toNat]
  else if -128 ≤ v ∧ v < -16 then [INT_8, (v % 256).toNat]
  else if -32768 ≤ v ∧ v < 32768 then INT_16 :: be2 (v % 65536).toNat
  else if -2147483648 ≤ v ∧ v < 2147483648 then INT_32 :: be4 (v % 4294967296).toNat
  else
    INT_64 :: (be4 ((v % 18446744073709551616).toNat / 4294967296) ++
      be4 ((v % 18446744073709551616).toNat % 4294967296))

/-- The claim's description of the integer return policy (spec section 4.3):
`use_big_integer` first, then `disable_lossless_integers` with saturation,
else the I64 itself. -/
def integerPolicySpec (disableLosslessIntegers useBigInt : Bool) (i : Int) : Value :=
  if useBigInt then .bigintV i
  else if disableLosslessIntegers then toNumberOrInfinityV (.int i)
  else .int i

/-- The claim's big-endian unsigned 16-bit encoding `[(n >>> 8) & 0xFF,
n & 0xFF]`. -/
def be16spec (n : Nat) : List Nat := [(n >>> 8) &&& 255, n &&& 255]

/-- The markers the unpacker recognizes (the union of the conditions of its
interpretation attempts, in source order: Null, Boolean, Float-or-Integer,
String, List, Bytes, Map, Structure). -/
def recognizedMarker (m : Nat) : Bool :=
  m = NULL || m = TRUE || m = FALSE ||
  m = FLOAT_64 || decide (m < 128) || (decide (240 ≤ m) && decide (m < 256)) ||
  m = INT_8 || m = INT_16 || m = INT_32 || m = INT_64 ||
  (m &&& 0xf0) = TINY_STRING || m = STRING_8 || m = STRING_16 || m = STRING_32 ||
  (m &&& 0xf0) = TINY_LIST || m = LIST_8 || m = LIST_16 || m = LIST_32 ||
  m = BYTES_8 || m = BYTES_16 || m = BYTES_32 ||
  (m &&& 0xf0) = TINY_MAP || m = MAP_8 || m = MAP_16 || m = MAP_32 ||
  (m &&& 0xf0) = TINY_STRUCT || m = STRUCT_8 || m = STRUCT_16

/-! ## Byte-level lemmas -/

theorem foldl_beVal (l : List Nat) (a : Nat) :
    l.foldl (fun a b => a * 256 + b) a = a * 256 ^ l.length + beVal l := by
  induction l generalizing a with
  | nil => simp [beVal]
  | cons b t ih =>
    simp only [List.foldl_cons, List.length_cons, beVal]
    rw [ih (a * 256 + b), ih (0 * 256 + b)]
    ring

theorem beVal_append (l1 l2 : List Nat) :
    beVal (l1 ++ l2) = beVal l1 * 256 ^ l2.length + beVal l2 := by
  show (l1 ++ l2).foldl (fun a b => a * 256 + b) 0 = _
  rw [List.foldl_append, foldl_beVal]
  rfl

theorem beVal_be2 (n : Nat) (h : n < 65536) : beVal (be2 n) = n := by
  simp only [be2, beVal, List.foldl]
  omega

theorem beVal_be4 (n : Nat) (h : n < 4294967296) : beVal (be4 n) = n := by
  simp only [be4, beVal, List.foldl]
  omega

theorem beVal_be8 (n : Nat) (h : n < 18446744073709551616) : beVal (be8 n) = n := by
  simp only [be8]
  rw [beVal_append]
  rw [beVal_be4 _ (by omega), beVal_be4 _ (by omega)]
  simp only [be4, List.length_cons, List.length_nil]
  omega

theorem be2_length (n : Nat) : (be2 n).length = 2 := rfl

theorem be4_length (n : Nat) : (be4 n).length = 4 := rfl

theorem be8_length (n : Nat) : (be8 n).length = 8 := by
  simp [be8, be4]

theorem readN_exact (l rest : List Nat) : readN l.length (l ++ rest) = .ok (l, rest) := by
  simp [readN, List.take_left, List.drop_left]

theorem readUInt8_cons (b : Nat) (r : Buf) : readUInt8 (b :: r) = .ok (b, r) := rfl

theorem readUInt16_be2 (n : Nat) (h : n < 65536) (rest : Buf) :
    readUInt16 (be2 n ++ rest) = .ok (n, rest) := by
  have : readN 2 (be2 n ++ rest) = .ok (be2 n, rest) := readN_exact (be2 n) rest
  simp [readUInt16, this, beVal_be2 n h]

theorem readUInt32_be4 (n : Nat) (h : n < 4294967296) (rest : Buf) :
    readUInt32 (be4 n ++ rest) = .ok (n, rest) := by
  have : readN 4 (be4 n ++ rest) = .ok (be4 n, rest) := readN_exact (be4 n) rest
  simp [readUInt32, this, beVal_be4 n h]

theorem readFloat64_be8 (n : Nat) (h : n < 18446744073709551616) (rest : Buf) :
    readFloat64 (be8 n ++ rest) = .ok (n, rest) := by
  have h8 : readN 8 (be8 n ++ rest) = .ok (be8 n, rest) := by
    have := readN_exact (be8 n) rest
    rwa [be8_length] at this
  simp [readFloat64, h8, beVal_be8 n h]

theorem toS8_emod (v : Int) (h1 : -128 ≤ v) (h2 : v < 128) :
    toS8 (v % 256).toNat = v := by
  simp only [toS8]
  split <;> omega

theorem toS16_emod (v : Int) (h1 : -32768 ≤ v) (h2 : v < 32768) :
    toS16 (v % 65536).toNat = v := by
  simp only [toS16]
  split <;> omega

theorem toS32_emod (v : Int) (h1 : -2147483648 ≤ v) (h2 : v < 2147483648) :
    toS32 (v % 4294967296).toNat = v := by
  simp only [toS32]
  split <;> omega

theorem wrap64_eq (i : Int) (h1 : -9223372036854775808 ≤ i)
    (h2 : i < 9223372036854775808) : wrap64 i = i := by
  simp only [wrap64]
  omega

/-- The `high` word written by `writeInt32` recovers the upper half of the
unsigned 64-bit representation. -/
theorem highWord_emod (i : Int) :
    (highWord i % 4294967296).toNat = (i % 18446744073709551616).toNat / 4294967296 := by
  simp only [highWord, toS32]
  split <;> omega

theorem lowWord_emod (i : Int) :
    (lowWord i % 4294967296).toNat = (i % 18446744073709551616).toNat % 4294967296 := by
  simp only [lowWord, toS32]
  split <;> omega

theorem valOf_words (i : Int) (h1 : -9223372036854775808 ≤ i)
    (h2 : i < 9223372036854775808) : valOf (lowWord i) (highWord i) = i := by
  simp only [valOf, lowWord, highWord, toS32]
  split <;> split <;> omega

/-! ## Tiny-marker arithmetic -/

theorem lor_tiny_string (n : Nat) (h : n < 16) : TINY_STRING ||| n = 128 + n := by
  revert h; revert n; decide

theorem lor_tiny_list (n : Nat) (h : n < 16) : TINY_LIST ||| n = 144 + n := by
  revert h; revert n; decide

theorem lor_tiny_map (n : Nat) (h : n < 16) : TINY_MAP ||| n = 160 + n := by
  revert h; revert n; decide

theorem lor_tiny_struct (n : Nat) (h : n < 16) : TINY_STRUCT ||| n = 176 + n := by
  revert h; revert n; decide

theorem tiny_markerHigh (base n : Nat) (hb : base = 128 ∨ base = 144 ∨ base = 160 ∨ base = 176)
    (h : n < 16) : (base + n) &&& 0xf0 = base := by
  rcases hb with rfl | rfl | rfl | rfl <;> (revert h; revert n; decide)

theorem tiny_markerLow (base n : Nat) (hb : base = 128 ∨ base = 144 ∨ base = 160 ∨ base = 176)
    (h : n < 16) : (base + n) &&& 0x0f = n := by
  rcases hb with rfl | rfl | rfl | rfl <;> (revert h; revert n; decide)

/-! ## Phase separation of the packer -/

theorem packable_packFields_fst (fuel : Nat) (bas : Bool) (dh : DHook) :
    (∀ v ch, (packable fuel bas dh v ch).1 = ch) ∧
    (∀ fs ch, (packFields fuel bas dh fs ch).1 = ch) := by
  induction fuel with
  | zero => exact ⟨fun v ch => rfl, fun fs ch => rfl⟩
  | succ f ih =>
    constructor
    · intro v ch
      show (packable (f + 1) bas dh v ch).1 = ch
      simp only [packable]
      rcases hdv : dh v with ex | y
      · rfl
      · cases y with
        | bool b => cases b <;> rfl
        | struct sig fields => simp only [(ih).2]
        | _ => rfl
    · intro fs ch
      show (packFields (f + 1) bas dh fs ch).1 = ch
      match fs with
      | [] => rfl
      | g :: gs =>
        simp only [packFields]
        rw [(ih).2 gs, (ih).1 g]

/-! ## Unpacker dispatch lemmas

These evaluate the helper interpreters on markers outside their class and
step `unpack` through its interpretation cascade. -/

theorem unpackBoolean_none (m : Nat) (h1 : m ≠ TRUE) (h2 : m ≠ FALSE) :
    unpackBoolean m = none := by
  simp [unpackBoolean, h1, h2]

theorem unpackInteger_none (m : Nat) (buf : Buf) (h1 : ¬ m < 128)
    (h2 : ¬ (240 ≤ m ∧ m < 256)) (h3 : m ≠ INT_8) (h4 : m ≠ INT_16)
    (h5 : m ≠ INT_32) (h6 : m ≠ INT_64) :
    unpackInteger m buf = .ok (none, buf) := by
  simp [unpackInteger, h1, h2, h3, h4, h5, h6]

theorem unpackNumberOrInteger_none (m : Nat) (buf : Buf) (h0 : m ≠ FLOAT_64)
    (h1 : ¬ m < 128) (h2 : ¬ (240 ≤ m ∧ m < 256)) (h3 : m ≠ INT_8)
    (h4 : m ≠ INT_16) (h5 : m ≠ INT_32) (h6 : m ≠ INT_64) :
    unpackNumberOrInteger m buf = .ok (none, buf) := by
  simp [unpackNumberOrInteger, h0, unpackInteger_none m buf h1 h2 h3 h4 h5 h6]

theorem unpackString_none (m mh ml : Nat) (buf : Buf) (h1 : mh ≠ TINY_STRING)
    (h2 : m ≠ STRING_8) (h3 : m ≠ STRING_16) (h4 : m ≠ STRING_32) :
    unpackString m mh ml buf = .ok (none, buf) := by
  simp [unpackString, h1, h2, h3, h4]

theorem unpackListSize_none (m mh ml : Nat) (buf : Buf) (h1 : mh ≠ TINY_LIST)
    (h2 : m ≠ LIST_8) (h3 : m ≠ LIST_16) (h4 : m ≠ LIST_32) :
    unpackListSize m mh ml buf = .ok none := by
  simp [unpackListSize, h1, h2, h3, h4]

theorem unpackByteArray_none (m : Nat) (buf : Buf) (h1 : m ≠ BYTES_8)
    (h2 : m ≠ BYTES_16) (h3 : m ≠ BYTES_32) :
    unpackByteArray m buf = .ok (none, buf) := by
  simp [unpackByteArray, h1, h2, h3]

theorem unpackMapSize_none (m mh ml : Nat) (buf : Buf) (h1 : mh ≠ TINY_MAP)
    (h2 : m ≠ MAP_8) (h3 : m ≠ MAP_16) (h4 : m ≠ MAP_32) :
    unpackMapSize m mh ml buf = .ok none := by
  simp [unpackMapSize, h1, h2, h3, h4]

theorem unpackStructSize_none (m mh ml : Nat) (buf : Buf) (h1 : mh ≠ TINY_STRUCT)
    (h2 : m ≠ STRUCT_8) (h3 : m ≠ STRUCT_16) :
    unpackStructSize m mh ml buf = .ok none := by
  simp [unpackStructSize, h1, h2, h3]

theorem unpack_null_case (fuel : Nat) (d u : Bool) (h : HHook) (buf : Buf) :
    unpack (fuel + 1) d u h (NULL :: buf) = .ok (.null, buf) := by
  simp [unpack, readUInt8, NULL]

theorem unpack_bool_case (fuel : Nat) (d u : Bool) (h : HHook) (m : Nat) (buf : Buf)
    (b : Bool) (hm : m ≠ NULL) (hb : unpackBoolean m = some b) :
    unpack (fuel + 1) d u h (m :: buf) = .ok (.bool b, buf) := by
  simp only [unpack, readUInt8, hm, hb, if_false]

theorem unpack_numint_case (fuel : Nat) (d u : Bool) (h : HHook) (m : Nat)
    (buf buf1 : Buf) (v : Value) (hm : m ≠ NULL) (hb : unpackBoolean m = none)
    (hn : unpackNumberOrInteger m buf = .ok (some v, buf1)) :
    unpack (fuel + 1) d u h (m :: buf) =
      .ok ((if isIntV v then
              (if u then toBigIntV v
               else if d then toNumberOrInfinityV v else v)
            else v), buf1) := by
  simp only [unpack, readUInt8, hm, hb, hn, if_false]
  split_ifs <;> rfl

theorem unpack_str_case (fuel : Nat) (d u : Bool) (h : HHook) (m : Nat)
    (buf buf2 : Buf) (s : List Nat) (hm : m ≠ NULL) (hb : unpackBoolean m = none)
    (hn : unpackNumberOrInteger m buf = .ok (none, buf))
    (hs : unpackString m (m &&& 0xf0) (m &&& 0x0f) buf = .ok (some s, buf2)) :
    unpack (fuel + 1) d u h (m :: buf) = .ok (.str s, buf2) := by
  simp only [unpack, readUInt8, hm, hb, hn, hs, if_false]

theorem unpack_list_case (fuel : Nat) (d u : Bool) (h : HHook) (m : Nat)
    (buf buf3 : Buf) (size : Nat) (hm : m ≠ NULL) (hb : unpackBoolean m = none)
    (hn : unpackNumberOrInteger m buf = .ok (none, buf))
    (hs : unpackString m (m &&& 0xf0) (m &&& 0x0f) buf = .ok (none, buf))
    (hl : unpackListSize m (m &&& 0xf0) (m &&& 0x0f) buf = .ok (some (size, buf3))) :
    unpack (fuel + 1) d u h (m :: buf) =
      match unpackListWithSize fuel d u h size buf3 with
      | .ok (xs, buf4) => .ok (.list xs, buf4)
      | .error e => .error e := by
  simp only [unpack, readUInt8, hm, hb, hn, hs, hl, if_false]

theorem unpack_bytes_case (fuel : Nat) (d u : Bool) (h : HHook) (m : Nat)
    (buf buf3 : Buf) (bs : List Int) (hm : m ≠ NULL) (hb : unpackBoolean m = none)
    (hn : unpackNumberOrInteger m buf = .ok (none, buf))
    (hs : unpackString m (m &&& 0xf0) (m &&& 0x0f) buf = .ok (none, buf))
    (hl : unpackListSize m (m &&& 0xf0) (m &&& 0x0f) buf = .ok none)
    (hy : unpackByteArray m buf = .ok (some bs, buf3)) :
    unpack (fuel + 1) d u h (m :: buf) = .ok (.bytes bs, buf3) := by
  simp only [unpack, readUInt8, hm, hb, hn, hs, hl, hy, if_false]

theorem unpack_map_case (fuel : Nat) (d u : Bool) (h : HHook) (m : Nat)
    (buf buf4 : Buf) (size : Nat) (hm : m ≠ NULL) (hb : unpackBoolean m = none)
    (hn : unpackNumberOrInteger m buf = .ok (none, buf))
    (hs : unpackString m (m &&& 0xf0) (m &&& 0x0f) buf = .ok (none, buf))
    (hl : unpackListSize m (m &&& 0xf0) (m &&& 0x0f) buf = .ok none)
    (hy : unpackByteArray m buf = .ok (none, buf))
    (hp : unpackMapSize m (m &&& 0xf0) (m &&& 0x0f) buf = .ok (some (size, buf4))) :
    unpack (fuel + 1) d u h (m :: buf) =
      match unpackMapWithSize fuel d u h size [] buf4 with
      | .ok (es, buf5) => .ok (.map es, buf5)
      | .error e => .error e := by
  simp only [unpack, readUInt8, hm, hb, hn, hs, hl, hy, hp, if_false]

theorem unpack_struct_case (fuel : Nat) (d u : Bool) (h : HHook) (m : Nat)
    (buf buf4 : Buf) (size : Nat) (hm : m ≠ NULL) (hb : unpackBoolean m = none)
    (hn : unpackNumberOrInteger m buf = .ok (none, buf))
    (hs : unpackString m (m &&& 0xf0) (m &&& 0x0f) buf = .ok (none, buf))
    (hl : unpackListSize m (m &&& 0xf0) (m &&& 0x0f) buf = .ok none)
    (hy : unpackByteArray m buf = .ok (none, buf))
    (hp : unpackMapSize m (m &&& 0xf0) (m &&& 0x0f) buf = .ok none)
    (ht : unpackStructSize m (m &&& 0xf0) (m &&& 0x0f) buf = .ok (some (size, buf4))) :
    unpack (fuel + 1) d u h (m :: buf) = unpackStructWithSize fuel d u h size buf4 := by
  simp only [unpack, readUInt8, hm, hb, hn, hs, hl, hy, hp, ht, if_false]

theorem unpack_unknown_case (fuel : Nat) (d u : Bool) (h : HHook) (m : Nat)
    (buf : Buf) (hm : m ≠ NULL) (hb : unpackBoolean m = none)
    (hn : unpackNumberOrInteger m buf = .ok (none, buf))
    (hs : unpackString m (m &&& 0xf0) (m &&& 0x0f) buf = .ok (none, buf))
    (hl : unpackListSize m (m &&& 0xf0) (m &&& 0x0f) buf = .ok none)
    (hy : unpackByteArray m buf = .ok (none, buf))
    (hp : unpackMapSize m (m &&& 0xf0) (m &&& 0x0f) buf = .ok none)
    (ht : unpackStructSize m (m &&& 0xf0) (m &&& 0x0f) buf = .ok none) :
    unpack (fuel + 1) d u h (m :: buf) = .error (.unknownMarker m) := by
  simp only [unpack, readUInt8, hm, hb, hn, hs, hl, hy, hp, ht, if_false]

/-! ## Small list helpers -/

theorem map_mod256_eq (s : List Nat) (h : ∀ b ∈ s, b < 256) : s.map (· % 256) = s := by
  induction s with
  | nil => rfl
  | cons b t ih =>
    have hb : b < 256 := h b (List.mem_cons_self b t)
    simp [Nat.mod_eq_of_lt hb, ih (fun x hx => h x (List.mem_cons_of_mem b hx))]

theorem writeInt8List_eq (bs : List Int) (ch : Ch) :
    writeInt8List bs ch = .ok () (ch ++ bs.map (fun v => (v % 256).toNat)) := by
  induction bs generalizing ch with
  | nil => simp [writeInt8List]
  | cons b t ih => simp [writeInt8List, pseq, writeInt8, ih]

theorem map_toS8_emod (bs : List Int) (h : ∀ v ∈ bs, -128 ≤ v ∧ v < 128) :
    (bs.map (fun v => (v % 256).toNat)).map toS8 = bs := by
  induction bs with
  | nil => rfl
  | cons b t ih =>
    have hb := h b (List.mem_cons_self b t)
    simp [toS8_emod b hb.1 hb.2, ih (fun x hx => h x (List.mem_cons_of_mem b hx))]

/-! ## Integer encode and decode -/

theorem lowWord_toNat_mod256 (i : Int) : (lowWord i % 256).toNat = (i % 256).toNat := by
  simp only [lowWord, toS32]
  split <;> omega

theorem lowWord_toNat_mod65536 (i : Int) :
    (lowWord i % 65536).toNat = (i % 65536).toNat := by
  simp only [lowWord, toS32]
  split <;> omega

theorem lowWord_toNat_mod32 (i : Int) :
    (lowWord i % 4294967296).toNat = (i % 4294967296).toNat := by
  simp only [lowWord, toS32]
  split <;> omega

/-- `packInteger` emits exactly the narrowest-form encoding the spec
describes. -/
theorem packInteger_eq_spec (i : Int) (h1 : -9223372036854775808 ≤ i)
    (h2 : i < 9223372036854775808) (ch : Ch) :
    packInteger i ch = .ok () (ch ++ packIntegerSpec i) := by
  have hw := wrap64_eq i h1 h2
  simp only [packInteger, packIntegerSpec, hw]
  by_cases c1 : -16 ≤ i ∧ i < 128
  · simp [if_pos c1, writeInt8, lowWord_toNat_mod256]
  · simp only [if_neg c1]
    by_cases c2 : -128 ≤ i ∧ i < -16
    · simp [if_pos c2, pseq, writeUInt8, writeInt8, lowWord_toNat_mod256, INT_8]
    · simp only [if_neg c2]
      by_cases c3 : -32768 ≤ i ∧ i < 32768
      · simp [if_pos c3, pseq, writeUInt8, writeInt16, lowWord_toNat_mod65536, INT_16]
      · simp only [if_neg c3]
        by_cases c4 : -2147483648 ≤ i ∧ i < 2147483648
        · simp [if_pos c4, pseq, writeUInt8, writeInt32, lowWord_toNat_mod32, INT_32]
        · simp [if_neg c4, pseq, writeUInt8, writeInt32, highWord_emod, lowWord_emod,
            INT_64]

/-- Decoding the narrowest-form integer encoding returns the value through
the integer policy (the flags in source order). -/
theorem unpack_packIntegerSpec (g : Nat) (d u : Bool) (h : HHook) (i : Int)
    (h1 : -9223372036854775808 ≤ i) (h2 : i < 9223372036854775808) (rest : Buf) :
    unpack (g + 1) d u h (packIntegerSpec i ++ rest) =
      .ok (integerPolicySpec d u i, rest) := by
  have hpol : ∀ buf1 : Buf,
      (Except.ok ((if isIntV (.int i) then
          (if u then toBigIntV (.int i)
           else if d then toNumberOrInfinityV (.int i) else (.int i))
        else (.int i)), buf1) : Except UErr (Value × Buf)) =
        .ok (integerPolicySpec d u i, buf1) := by
    intro buf1
    cases u <;> cases d <;> rfl
  by_cases c1 : -16 ≤ i ∧ i < 128
  · simp only [packIntegerSpec, if_pos c1, List.singleton_append]
    have hni : unpackNumberOrInteger (i % 256).toNat rest = .ok (some (.int i), rest) := by
      simp only [unpackNumberOrInteger, unpackInteger]
      rw [if_neg (by simp only [FLOAT_64]; omega)]
      by_cases c0 : 0 ≤ i
      · rw [if_pos (by omega), show (((i % 256).toNat : Int)) = i from by omega]
      · rw [if_neg (by omega), if_pos (by constructor <;> omega),
          show (((i % 256).toNat : Int) - 256) = i from by omega]
    rw [unpack_numint_case g d u h ((i % 256).toNat) rest rest (.int i)
      (by simp only [NULL]; omega)
      (unpackBoolean_none _ (by simp only [TRUE]; omega) (by simp only [FALSE]; omega))
      hni]
    exact hpol rest
  · by_cases c2 : -128 ≤ i ∧ i < -16
    · simp only [packIntegerSpec, if_neg c1, if_pos c2, List.cons_append, List.nil_append, INT_8]
      have hni : unpackNumberOrInteger 200 ((i % 256).toNat :: rest) =
          .ok (some (.int i), rest) := by
        simp [unpackNumberOrInteger, unpackInteger, FLOAT_64, INT_8, INT_16, INT_32,
          INT_64, readInt8, readUInt8, toS8_emod i (by omega : (-128:Int) ≤ i) (by omega : i < 128)]
      rw [unpack_numint_case g d u h 200 _ rest (.int i)
        (by simp [NULL])
        (unpackBoolean_none _ (by simp [TRUE]) (by simp [FALSE]))
        hni]
      exact hpol rest
    · by_cases c3 : -32768 ≤ i ∧ i < 32768
      · simp only [packIntegerSpec, if_neg c1, if_neg c2, if_pos c3, List.cons_append,
          List.nil_append, INT_16]
        have hni : unpackNumberOrInteger 201 (be2 (i % 65536).toNat ++ rest) =
            .ok (some (.int i), rest) := by
          simp [unpackNumberOrInteger, unpackInteger, FLOAT_64, INT_8, INT_16, INT_32,
            INT_64, readInt16, readUInt16_be2 ((i % 65536).toNat) (by omega) rest,
            toS16_emod i (by omega : (-32768:Int) ≤ i) (by omega : i < 32768)]
        rw [unpack_numint_case g d u h 201 _ rest (.int i)
          (by simp [NULL])
          (unpackBoolean_none _ (by simp [TRUE]) (by simp [FALSE]))
          hni]
        exact hpol rest
      · by_cases c4 : -2147483648 ≤ i ∧ i < 2147483648
        · simp only [packIntegerSpec, if_neg c1, if_neg c2, if_neg c3, if_pos c4,
            List.cons_append, List.nil_append, INT_32]
          have hni : unpackNumberOrInteger 202 (be4 (i % 4294967296).toNat ++ rest) =
              .ok (some (.int i), rest) := by
            simp [unpackNumberOrInteger, unpackInteger, FLOAT_64, INT_8, INT_16, INT_32,
              INT_64, readInt32, readUInt32_be4 ((i % 4294967296).toNat) (by omega) rest,
              toS32_emod i (by omega : (-2147483648:Int) ≤ i) (by omega : i < 2147483648)]
          rw [unpack_numint_case g d u h 202 _ rest (.int i)
            (by simp [NULL])
            (unpackBoolean_none _ (by simp [TRUE]) (by simp [FALSE]))
            hni]
          exact hpol rest
        · simp only [packIntegerSpec, if_neg c1, if_neg c2, if_neg c3, if_neg c4,
            List.cons_append, List.nil_append, List.append_assoc, INT_64]
          have hni : unpackNumberOrInteger 203
              (be4 ((i % 18446744073709551616).toNat / 4294967296) ++
                (be4 ((i % 18446744073709551616).toNat % 4294967296) ++ rest)) =
              .ok (some (.int i), rest) := by
            have hh : toS32 ((i % 18446744073709551616).toNat / 4294967296) = highWord i := rfl
            have hl : toS32 ((i % 18446744073709551616).toNat % 4294967296) = lowWord i := rfl
            have r1 : readInt32 (be4 ((i % 18446744073709551616).toNat / 4294967296) ++
                (be4 ((i % 18446744073709551616).toNat % 4294967296) ++ rest)) =
                .ok (highWord i, be4 ((i % 18446744073709551616).toNat % 4294967296) ++ rest) := by
              simp [readInt32,
                readUInt32_be4 ((i % 18446744073709551616).toNat / 4294967296) (by omega) _, hh]
            have r2 : readInt32 (be4 ((i % 18446744073709551616).toNat % 4294967296) ++ rest) =
                .ok (lowWord i, rest) := by
              simp [readInt32,
                readUInt32_be4 ((i % 18446744073709551616).toNat % 4294967296) (by omega) rest, hl]
            simp [unpackNumberOrInteger, unpackInteger, FLOAT_64, INT_8, INT_16,
              INT_32, INT_64, r1, r2, valOf_words i h1 h2]
          rw [unpack_numint_case g d u h 203 _ rest (.int i)
            (by simp [NULL])
            (unpackBoolean_none _ (by simp [TRUE]) (by simp [FALSE]))
            hni]
          exact hpol rest

/-! ## Float, string and byte-array round-trips -/

theorem packFloat_eq (bits : Nat) (hb : bits < 18446744073709551616) (ch : Ch) :
    packFloat bits ch = .ok () (ch ++ FLOAT_64 :: be8 bits) := by
  simp [packFloat, pseq, writeUInt8, writeFloat64, FLOAT_64, Nat.mod_eq_of_lt hb]

theorem unpack_float (g : Nat) (d u : Bool) (h : HHook) (bits : Nat)
    (hb : bits < 18446744073709551616) (rest : Buf) :
    unpack (g + 1) d u h (FLOAT_64 :: (be8 bits ++ rest)) = .ok (.float bits, rest) := by
  have hni : unpackNumberOrInteger FLOAT_64 (be8 bits ++ rest) =
      .ok (some (.float bits), rest) := by
    simp [unpackNumberOrInteger, FLOAT_64, readFloat64_be8 bits hb rest]
  rw [unpack_numint_case g d u h FLOAT_64 _ rest (.float bits)
    (by simp [NULL, FLOAT_64])
    (unpackBoolean_none _ (by simp [TRUE, FLOAT_64]) (by simp [FALSE, FLOAT_64])) hni]
  rfl

/-- Round-trip for string payloads: `packString` emits a size-class header
and the bytes, and `unpack` recovers exactly the string. -/
theorem str_rt (s : List Nat) (hs : wfStr s = true) :
    ∃ b : List Nat,
      (∀ ch, packString s ch = .ok () (ch ++ b)) ∧
      (∀ (g : Nat) (d u : Bool) (h : HHook) (rest : Buf),
        unpack (g + 1) d u h (b ++ rest) = .ok (.str s, rest)) := by
  have hlen : s.length < 4294967296 := by
    have := (Bool.and_eq_true _ _).mp hs
    exact of_decide_eq_true this.1
  have hall : ∀ b ∈ s, b < 256 := by
    have := (Bool.and_eq_true _ _).mp hs
    intro b hb
    have := List.all_eq_true.mp this.2 b hb
    simpa using this
  have hmap : s.map (· % 256) = s := map_mod256_eq s hall
  by_cases l1 : s.length < 16
  · refine ⟨(128 + s.length) :: s, ?_, ?_⟩
    · intro ch
      simp only [packString, if_pos l1, pseq, writeUInt8, writeBytes,
        lor_tiny_string s.length l1, hmap]
      rw [Nat.mod_eq_of_lt (by omega)]
      simp
    · intro g d u h rest
      have hmh := tiny_markerHigh 128 s.length (Or.inl rfl) l1
      have hml := tiny_markerLow 128 s.length (Or.inl rfl) l1
      rw [List.cons_append,
        unpack_str_case g d u h (128 + s.length) (s ++ rest) rest s
        (by simp only [NULL]; omega)
        (unpackBoolean_none _ (by simp only [TRUE]; omega) (by simp only [FALSE]; omega))
        (unpackNumberOrInteger_none _ _ (by simp only [FLOAT_64]; omega) (by omega)
          (by omega) (by simp only [INT_8]; omega) (by simp only [INT_16]; omega)
          (by simp only [INT_32]; omega) (by simp only [INT_64]; omega))
        (by rw [unpackString, if_pos (by rw [hmh]; rfl), hml, readN_exact s rest])]
  · by_cases l2 : s.length < 256
    · refine ⟨208 :: s.length :: s, ?_, ?_⟩
      · intro ch
        simp only [packString, if_neg l1, if_pos l2, pseq, writeUInt8, writeBytes,
          STRING_8, hmap]
        rw [Nat.mod_eq_of_lt (by omega : s.length < 256)]
        simp
      · intro g d u h rest
        rw [List.cons_append, List.cons_append,
          unpack_str_case g d u h 208 (s.length :: (s ++ rest)) rest s
          (by simp [NULL])
          (unpackBoolean_none _ (by simp [TRUE]) (by simp [FALSE]))
          (unpackNumberOrInteger_none _ _ (by simp [FLOAT_64]) (by omega)
            (by omega) (by simp [INT_8]) (by simp [INT_16])
            (by simp [INT_32]) (by simp [INT_64]))
          (by rw [unpackString, if_neg (by decide), if_pos (by rfl)]
              simp [readUInt8, readN_exact s rest])]
    · by_cases l3 : s.length < 65536
      · refine ⟨209 :: (be2 s.length ++ s), ?_, ?_⟩
        · intro ch
          simp only [packString, if_neg l1, if_neg l2, if_pos l3, pseq, writeUInt8,
            writeBytes, STRING_16, hmap, be2]
          rw [Nat.mod_eq_of_lt (by omega : s.length / 256 < 256)]
          simp
        · intro g d u h rest
          rw [List.cons_append, List.append_assoc,
            unpack_str_case g d u h 209 (be2 s.length ++ (s ++ rest)) rest s
            (by simp [NULL])
            (unpackBoolean_none _ (by simp [TRUE]) (by simp [FALSE]))
            (unpackNumberOrInteger_none _ _ (by simp [FLOAT_64]) (by omega)
              (by omega) (by simp [INT_8]) (by simp [INT_16])
              (by simp [INT_32]) (by simp [INT_64]))
            (by rw [unpackString, if_neg (by decide), if_neg (by decide),
                  if_pos (by rfl)]
                rw [readUInt16_be2 s.length (by omega) (s ++ rest)]
                simp [readN_exact s rest])]
      · refine ⟨210 :: (be4 s.length ++ s), ?_, ?_⟩
        · intro ch
          simp only [packString, if_neg l1, if_neg l2, if_neg l3, if_pos hlen, pseq,
            writeUInt8, writeBytes, STRING_32, hmap, be4]
          have e1 : s.length / 16777216 % 256 % 256 = s.length / 16777216 % 256 := by omega
          have e2 : s.length / 65536 % 256 % 256 = s.length / 65536 % 256 := by omega
          have e3 : s.length / 256 % 256 % 256 = s.length / 256 % 256 := by omega
          have e4 : s.length % 256 % 256 = s.length % 256 := by omega
          rw [e1, e2, e3, e4]
          simp
        · intro g d u h rest
          rw [List.cons_append, List.append_assoc,
            unpack_str_case g d u h 210 (be4 s.length ++ (s ++ rest)) rest s
            (by simp [NULL])
            (unpackBoolean_none _ (by simp [TRUE]) (by simp [FALSE]))
            (unpackNumberOrInteger_none _ _ (by simp [FLOAT_64]) (by omega)
              (by omega) (by simp [INT_8]) (by simp [INT_16])
              (by simp [INT_32]) (by simp [INT_64]))
            (by rw [unpackString, if_neg (by decide), if_neg (by decide),
                  if_neg (by decide), if_pos (by rfl)]
                rw [readUInt32_be4 s.length hlen (s ++ rest)]
                simp [readN_exact s rest])]

/-- Round-trip for byte arrays (with the byte-array flag enabled):
`packBytes` emits a size-class header and the signed bytes, and `unpack`
recovers exactly the array. -/
theorem bytes_rt (bs : List Int) (hlen : bs.length < 4294967296)
    (hall : ∀ v ∈ bs, -128 ≤ v ∧ v < 128) :
    ∃ b : List Nat,
      (∀ ch, packBytes true bs ch = .ok () (ch ++ b)) ∧
      (∀ (g : Nat) (d u : Bool) (h : HHook) (rest : Buf),
        unpack (g + 1) d u h (b ++ rest) = .ok (.bytes bs, rest)) := by
  have hplen : (bs.map (fun v => (v % 256).toNat)).length = bs.length := by simp
  have hback := map_toS8_emod bs hall
  have hwl : ∀ ch, writeInt8List bs ch = .ok () (ch ++ bs.map (fun v => (v % 256).toNat)) :=
    fun ch => writeInt8List_eq bs ch
  have hba : ∀ size rest2, size = bs.length →
      unpackByteArrayWithSize size (bs.map (fun v => (v % 256).toNat) ++ rest2) =
        .ok (bs, rest2) := by
    intro size rest2 hsz
    subst hsz
    rw [unpackByteArrayWithSize, ← hplen, readN_exact _ rest2]
    simp [hback]
  by_cases l2 : bs.length < 256
  · refine ⟨204 :: bs.length :: bs.map (fun v => (v % 256).toNat), ?_, ?_⟩
    · intro ch
      simp only [packBytes, if_pos rfl, pseq, packBytesHeader, if_pos l2, writeUInt8,
        BYTES_8, hwl]
      rw [Nat.mod_eq_of_lt (by omega : bs.length < 256)]
      simp [pseq, writeUInt8, hwl]
    · intro g d u h rest
      rw [List.cons_append, List.cons_append,
        unpack_bytes_case g d u h 204 (bs.length :: (bs.map (fun v => (v % 256).toNat) ++ rest))
          rest bs
        (by simp [NULL])
        (unpackBoolean_none _ (by simp [TRUE]) (by simp [FALSE]))
        (unpackNumberOrInteger_none _ _ (by simp [FLOAT_64]) (by omega)
          (by omega) (by simp [INT_8]) (by simp [INT_16])
          (by simp [INT_32]) (by simp [INT_64]))
        (unpackString_none _ _ _ _ (by decide) (by decide) (by decide) (by decide))
        (unpackListSize_none _ _ _ _ (by decide) (by decide) (by decide) (by decide))
        (by rw [unpackByteArray, if_pos (by rfl)]
            simp only [readUInt8]
            rw [hba bs.length rest rfl])]
  · by_cases l3 : bs.length < 65536
    · refine ⟨205 :: (be2 bs.length ++ bs.map (fun v => (v % 256).toNat)), ?_, ?_⟩
      · intro ch
        simp only [packBytes, if_pos rfl, pseq, packBytesHeader, if_neg l2, if_pos l3,
          writeUInt8, BYTES_16, be2, hwl]
        have e2 : bs.length % 256 % 256 = bs.length % 256 := by omega
        have e3 : bs.length / 256 % 256 % 256 = bs.length / 256 % 256 := by omega
        rw [e2, e3]
        simp [pseq, writeUInt8, hwl]
      · intro g d u h rest
        rw [List.cons_append, List.append_assoc,
          unpack_bytes_case g d u h 205
            (be2 bs.length ++ (bs.map (fun v => (v % 256).toNat) ++ rest)) rest bs
          (by simp [NULL])
          (unpackBoolean_none _ (by simp [TRUE]) (by simp [FALSE]))
          (unpackNumberOrInteger_none _ _ (by simp [FLOAT_64]) (by omega)
            (by omega) (by simp [INT_8]) (by simp [INT_16])
            (by simp [INT_32]) (by simp [INT_64]))
          (unpackString_none _ _ _ _ (by decide) (by decide) (by decide) (by decide))
          (unpackListSize_none _ _ _ _ (by decide) (by decide) (by decide) (by decide))
          (by rw [unpackByteArray, if_neg (by decide), if_pos (by rfl),
                readUInt16_be2 bs.length (by omega)
                  (bs.map (fun v => (v % 256).toNat) ++ rest)]
              simp [hba bs.length rest rfl])]
    · refine ⟨206 :: (be4 bs.length ++ bs.map (fun v => (v % 256).toNat)), ?_, ?_⟩
      · intro ch
        simp only [packBytes, if_pos rfl, pseq, packBytesHeader, if_neg l2, if_neg l3,
          if_pos hlen, writeUInt8, BYTES_32, be4, hwl]
        have e1 : bs.length / 16777216 % 256 % 256 = bs.length / 16777216 % 256 := by omega
        have e2 : bs.length / 65536 % 256 % 256 = bs.length / 65536 % 256 := by omega
        have e3 : bs.length / 256 % 256 % 256 = bs.length / 256 % 256 := by omega
        have e4 : bs.length % 256 % 256 = bs.length % 256 := by omega
        rw [e1, e2, e3, e4]
        simp [pseq, writeUInt8, hwl]
      · intro g d u h rest
        rw [List.cons_append, List.append_assoc,
          unpack_bytes_case g d u h 206
            (be4 bs.length ++ (bs.map (fun v => (v % 256).toNat) ++ rest)) rest bs
          (by simp [NULL])
          (unpackBoolean_none _ (by simp [TRUE]) (by simp [FALSE]))
          (unpackNumberOrInteger_none _ _ (by simp [FLOAT_64]) (by omega)
            (by omega) (by simp [INT_8]) (by simp [INT_16])
            (by simp [INT_32]) (by simp [INT_64]))
          (unpackString_none _ _ _ _ (by decide) (by decide) (by decide) (by decide))
          (unpackListSize_none _ _ _ _ (by decide) (by decide) (by decide) (by decide))
          (by rw [unpackByteArray, if_neg (by decide), if_neg (by decide),
                if_pos (by rfl),
                readUInt32_be4 bs.length hlen
                  (bs.map (fun v => (v % 256).toNat) ++ rest)]
              simp [hba bs.length rest rfl])]

/-! ## Round-trip framework -/

/-- `packable` with byte arrays enabled and the identity hook produces, for
every sufficient fuel, a closure that appends exactly `b` at any invocation
channel. -/
def PackTo (v : Value) (b : List Nat) : Prop :=
  ∀ fuel ch c, dN v ≤ fuel → ((packable fuel true dId v ch).2) c = .ok () (c ++ b)

/-- `unpack` with default flags and the identity hook consumes exactly `b`
and returns the decoded image of `v`. -/
def DecTo (v : Value) (b : List Nat) : Prop :=
  ∀ fuel rest, dN v ≤ fuel → unpack fuel false false hId (b ++ rest) = .ok (D v, rest)

/-- Round-trip: some byte sequence is both what the packer writes for `v`
and what the unpacker reads back as the decoded image of `v`. -/
def RT (v : Value) : Prop := ∃ b, PackTo v b ∧ DecTo v b

theorem dN_pos (v : Value) : 1 ≤ dN v := by
  cases v <;> simp [dN]

theorem dNL_pos (xs : List Value) : 1 ≤ dNL xs := by
  cases xs <;> simp [dNL]

theorem dNP_pos (es : List (List Nat × Value)) : 1 ≤ dNP es := by
  cases es with
  | nil => simp [dNP]
  | cons p es => cases p; simp [dNP]

theorem dNF_pos (fs : List Value) : 1 ≤ dNF fs := by
  cases fs <;> simp [dNF]

theorem dNL_cons (x : Value) (xs : List Value) :
    dNL (x :: xs) = max (dN x) (dNL xs) + 1 := by
  simp [dNL]

theorem dNP_cons (k : List Nat) (v : Value) (es : List (List Nat × Value)) :
    dNP ((k, v) :: es) = max (dN v) (dNP es) + 1 := by
  simp [dNP]

theorem dNF_cons (f : Value) (fs : List Value) :
    dNF (f :: fs) = max (dN f) (dNF fs) + 1 := by
  simp [dNF]

theorem dN_le_dNL (x : Value) (xs : List Value) (hx : x ∈ xs) : dN x ≤ dNL xs := by
  induction xs with
  | nil => cases hx
  | cons y ys ih =>
    rcases List.mem_cons.mp hx with rfl | hmem
    · rw [dNL_cons]; omega
    · have := ih hmem
      rw [dNL_cons]; omega

theorem dN_le_dNP (p : List Nat × Value) (es : List (List Nat × Value)) (hp : p ∈ es) :
    dN p.2 ≤ dNP es := by
  induction es with
  | nil => cases hp
  | cons q qs ih =>
    rcases List.mem_cons.mp hp with h1 | hmem
    · rw [h1]
      obtain ⟨k, v⟩ := q
      rw [dNP_cons]
      show dN v ≤ max (dN v) (dNP qs) + 1
      omega
    · have := ih hmem
      obtain ⟨k, v⟩ := q
      rw [dNP_cons]
      omega

theorem dN_le_dNF (f : Value) (fs : List Value) (hf : f ∈ fs) : dN f ≤ dNF fs := by
  induction fs with
  | nil => cases hf
  | cons g gs ih =>
    rcases List.mem_cons.mp hf with rfl | hmem
    · rw [dNF_cons]; omega
    · have := ih hmem
      rw [dNF_cons]; omega

theorem D_sub (x : Value) :
    D (if isUndef x then Value.null else x) =
      (if isUndef x then Value.null else D x) := by
  by_cases hu : isUndef x <;> simp [hu, D]

theorem dN_sub_le (x : Value) : dN (if isUndef x then Value.null else x) ≤ dN x := by
  by_cases hu : isUndef x <;> simp [hu, dN, dN_pos x]

/-! ## Leaf round-trips -/

theorem rt_null : RT .null := by
  refine ⟨[NULL], ?_, ?_⟩
  · intro fuel ch c hf
    have h1 := dN_pos Value.null
    match fuel, hf with
    | f + 1, _ => simp [packable, dId, writeUInt8, NULL]
  · intro fuel rest hf
    match fuel, hf with
    | f + 1, _ =>
      have := unpack_null_case f false false hId rest
      simpa [D] using this

theorem rt_bool (b : Bool) : RT (.bool b) := by
  cases b
  · refine ⟨[FALSE], ?_, ?_⟩
    · intro fuel ch c hf
      match fuel, hf with
      | f + 1, _ => simp [packable, dId, writeUInt8, FALSE]
    · intro fuel rest hf
      match fuel, hf with
      | f + 1, _ =>
        rw [List.singleton_append,
          unpack_bool_case f false false hId FALSE rest false (by simp [NULL, FALSE])
            (by simp [unpackBoolean, TRUE, FALSE])]
        rfl
  · refine ⟨[TRUE], ?_, ?_⟩
    · intro fuel ch c hf
      match fuel, hf with
      | f + 1, _ => simp [packable, dId, writeUInt8, TRUE]
    · intro fuel rest hf
      match fuel, hf with
      | f + 1, _ =>
        rw [List.singleton_append,
          unpack_bool_case f false false hId TRUE rest true (by simp [NULL, TRUE])
            (by simp [unpackBoolean, TRUE])]
        rfl

theorem rt_float (bits : Nat) (hb : bits < 18446744073709551616) :
    RT (.float bits) := by
  refine ⟨FLOAT_64 :: be8 bits, ?_, ?_⟩
  · intro fuel ch c hf
    match fuel, hf with
    | f + 1, _ =>
      simp only [packable, dId]
      exact packFloat_eq bits hb c
  · intro fuel rest hf
    match fuel, hf with
    | f + 1, _ =>
      rw [List.cons_append, unpack_float f false false hId bits hb rest]
      rfl

theorem rt_int (i : Int) (h1 : -9223372036854775808 ≤ i)
    (h2 : i < 9223372036854775808) : RT (.int i) := by
  refine ⟨packIntegerSpec i, ?_, ?_⟩
  · intro fuel ch c hf
    match fuel, hf with
    | f + 1, _ =>
      simp only [packable, dId]
      exact packInteger_eq_spec i h1 h2 c
  · intro fuel rest hf
    match fuel, hf with
    | f + 1, _ =>
      rw [unpack_packIntegerSpec f false false hId i h1 h2 rest]
      rfl

theorem rt_str (s : List Nat) (hs : wfStr s = true) : RT (.str s) := by
  obtain ⟨b, hp, hd⟩ := str_rt s hs
  refine ⟨b, ?_, ?_⟩
  · intro fuel ch c hf
    match fuel, hf with
    | f + 1, _ =>
      simp only [packable, dId]
      exact hp c
  · intro fuel rest hf
    match fuel, hf with
    | f + 1, _ =>
      rw [hd f false false hId rest]
      rfl

theorem rt_bytes (bs : List Int) (hlen : bs.length < 4294967296)
    (hall : ∀ v ∈ bs, -128 ≤ v ∧ v < 128) : RT (.bytes bs) := by
  obtain ⟨b, hp, hd⟩ := bytes_rt bs hlen hall
  refine ⟨b, ?_, ?_⟩
  · intro fuel ch c hf
    match fuel, hf with
    | f + 1, _ =>
      simp only [packable, dId]
      exact hp c
  · intro fuel rest hf
    match fuel, hf with
    | f + 1, _ =>
      rw [hd f false false hId rest]
      rfl

/-! ## Composite header hand-off lemmas -/

/-- `packListHeader` writes a header that `unpack` consumes, handing the
stated element count to the element loop. -/
theorem listHeader_rt (n : Nat) (hn : n < 4294967296) :
    ∃ hd : List Nat,
      (∀ c, packListHeader n c = .ok () (c ++ hd)) ∧
      (∀ (g : Nat) (d u : Bool) (h : HHook) (tail : Buf),
        unpack (g + 1) d u h (hd ++ tail) =
          match unpackListWithSize g d u h n tail with
          | .ok (xs, b) => .ok (.list xs, b)
          | .error e => .error e) := by
  by_cases l1 : n < 16
  · refine ⟨[144 + n], ?_, ?_⟩
    · intro c
      simp only [packListHeader, if_pos l1, writeUInt8, lor_tiny_list n l1]
      rw [Nat.mod_eq_of_lt (by omega)]
    · intro g d u h tail
      have hmh := tiny_markerHigh 144 n (Or.inr (Or.inl rfl)) l1
      have hml := tiny_markerLow 144 n (Or.inr (Or.inl rfl)) l1
      rw [List.singleton_append,
        unpack_list_case g d u h (144 + n) tail tail n
        (by simp only [NULL]; omega)
        (unpackBoolean_none _ (by simp only [TRUE]; omega) (by simp only [FALSE]; omega))
        (unpackNumberOrInteger_none _ _ (by simp only [FLOAT_64]; omega) (by omega)
          (by omega) (by simp only [INT_8]; omega) (by simp only [INT_16]; omega)
          (by simp only [INT_32]; omega) (by simp only [INT_64]; omega))
        (unpackString_none _ _ _ _ (by rw [hmh]; decide) (by simp only [STRING_8]; omega)
          (by simp only [STRING_16]; omega) (by simp only [STRING_32]; omega))
        (by rw [unpackListSize, if_pos (by rw [hmh]; rfl), hml])]
  · by_cases l2 : n < 256
    · refine ⟨[212, n], ?_, ?_⟩
      · intro c
        simp only [packListHeader, if_neg l1, if_pos l2, pseq, writeUInt8, LIST_8]
        rw [Nat.mod_eq_of_lt (by omega : n < 256)]
        simp
      · intro g d u h tail
        rw [List.cons_append, List.singleton_append,
          unpack_list_case g d u h 212 (n :: tail) tail n
          (by simp [NULL])
          (unpackBoolean_none _ (by simp [TRUE]) (by simp [FALSE]))
          (unpackNumberOrInteger_none _ _ (by simp [FLOAT_64]) (by omega)
            (by omega) (by simp [INT_8]) (by simp [INT_16])
            (by simp [INT_32]) (by simp [INT_64]))
          (unpackString_none _ _ _ _ (by decide) (by decide) (by decide) (by decide))
          (by rw [unpackListSize, if_neg (by decide), if_pos (by rfl)]
              simp [readUInt8])]
    · by_cases l3 : n < 65536
      · refine ⟨213 :: be2 n, ?_, ?_⟩
        · intro c
          simp only [packListHeader, if_neg l1, if_neg l2, if_pos l3, pseq, writeUInt8,
            LIST_16, be2]
          simp
        · intro g d u h tail
          rw [List.cons_append,
            unpack_list_case g d u h 213 (be2 n ++ tail) tail n
            (by simp [NULL])
            (unpackBoolean_none _ (by simp [TRUE]) (by simp [FALSE]))
            (unpackNumberOrInteger_none _ _ (by simp [FLOAT_64]) (by omega)
              (by omega) (by simp [INT_8]) (by simp [INT_16])
              (by simp [INT_32]) (by simp [INT_64]))
            (unpackString_none _ _ _ _ (by decide) (by decide) (by decide) (by decide))
            (by rw [unpackListSize, if_neg (by decide), if_neg (by decide),
                  if_pos (by rfl), readUInt16_be2 n (by omega) tail])]
      · refine ⟨214 :: be4 n, ?_, ?_⟩
        · intro c
          simp only [packListHeader, if_neg l1, if_neg l2, if_neg l3, if_pos hn, pseq,
            writeUInt8, LIST_32, be4]
          simp
        · intro g d u h tail
          rw [List.cons_append,
            unpack_list_case g d u h 214 (be4 n ++ tail) tail n
            (by simp [NULL])
            (unpackBoolean_none _ (by simp [TRUE]) (by simp [FALSE]))
            (unpackNumberOrInteger_none _ _ (by simp [FLOAT_64]) (by omega)
              (by omega) (by simp [INT_8]) (by simp [INT_16])
              (by simp [INT_32]) (by simp [INT_64]))
            (unpackString_none _ _ _ _ (by decide) (by decide) (by decide) (by decide))
            (by rw [unpackListSize, if_neg (by decide), if_neg (by decide),
                  if_neg (by decide), if_pos (by rfl), readUInt32_be4 n hn tail])]

/-- `packMapHeader` writes a header that `unpack` consumes, handing the
stated entry count to the pair loop (with an empty accumulator object). -/
theorem mapHeader_rt (n : Nat) (hn : n < 4294967296) :
    ∃ hd : List Nat,
      (∀ c, packMapHeader n c = .ok () (c ++ hd)) ∧
      (∀ (g : Nat) (d u : Bool) (h : HHook) (tail : Buf),
        unpack (g + 1) d u h (hd ++ tail) =
          match unpackMapWithSize g d u h n [] tail with
          | .ok (es, b) => .ok (.map es, b)
          | .error e => .error e) := by
  by_cases l1 : n < 16
  · refine ⟨[160 + n], ?_, ?_⟩
    · intro c
      simp only [packMapHeader, if_pos l1, writeUInt8, lor_tiny_map n l1]
      rw [Nat.mod_eq_of_lt (by omega)]
    · intro g d u h tail
      have hmh := tiny_markerHigh 160 n (Or.inr (Or.inr (Or.inl rfl))) l1
      have hml := tiny_markerLow 160 n (Or.inr (Or.inr (Or.inl rfl))) l1
      rw [List.singleton_append,
        unpack_map_case g d u h (160 + n) tail tail n
        (by simp only [NULL]; omega)
        (unpackBoolean_none _ (by simp only [TRUE]; omega) (by simp only [FALSE]; omega))
        (unpackNumberOrInteger_none _ _ (by simp only [FLOAT_64]; omega) (by omega)
          (by omega) (by simp only [INT_8]; omega) (by simp only [INT_16]; omega)
          (by simp only [INT_32]; omega) (by simp only [INT_64]; omega))
        (unpackString_none _ _ _ _ (by rw [hmh]; decide) (by simp only [STRING_8]; omega)
          (by simp only [STRING_16]; omega) (by simp only [STRING_32]; omega))
        (unpackListSize_none _ _ _ _ (by rw [hmh]; decide) (by simp only [LIST_8]; omega)
          (by simp only [LIST_16]; omega) (by simp only [LIST_32]; omega))
        (unpackByteArray_none _ _ (by simp only [BYTES_8]; omega)
          (by simp only [BYTES_16]; omega) (by simp only [BYTES_32]; omega))
        (by rw [unpackMapSize, if_pos (by rw [hmh]; rfl), hml])]
  · by_cases l2 : n < 256
    · refine ⟨[216, n], ?_, ?_⟩
      · intro c
        simp only [packMapHeader, if_neg l1, if_pos l2, pseq, writeUInt8, MAP_8]
        rw [Nat.mod_eq_of_lt (by omega : n < 256)]
        simp
      · intro g d u h tail
        rw [List.cons_append, List.singleton_append,
          unpack_map_case g d u h 216 (n :: tail) tail n
          (by simp [NULL])
          (unpackBoolean_none _ (by simp [TRUE]) (by simp [FALSE]))
          (unpackNumberOrInteger_none _ _ (by simp [FLOAT_64]) (by omega)
            (by omega) (by simp [INT_8]) (by simp [INT_16])
            (by simp [INT_32]) (by simp [INT_64]))
          (unpackString_none _ _ _ _ (by decide) (by decide) (by decide) (by decide))
          (unpackListSize_none _ _ _ _ (by decide) (by decide) (by decide) (by decide))
          (unpackByteArray_none _ _ (by decide) (by decide) (by decide))
          (by rw [unpackMapSize, if_neg (by decide), if_pos (by rfl)]
              simp [readUInt8])]
    · by_cases l3 : n < 65536
      · refine ⟨217 :: be2 n, ?_, ?_⟩
        · intro c
          simp only [packMapHeader, if_neg l1, if_neg l2, if_pos l3, pseq, writeUInt8,
            MAP_16, be2]
          rw [Nat.mod_eq_of_lt (by omega : n / 256 < 256)]
          simp
        · intro g d u h tail
          rw [List.cons_append,
            unpack_map_case g d u h 217 (be2 n ++ tail) tail n
            (by simp [NULL])
            (unpackBoolean_none _ (by simp [TRUE]) (by simp [FALSE]))
            (unpackNumberOrInteger_none _ _ (by simp [FLOAT_64]) (by omega)
              (by omega) (by simp [INT_8]) (by simp [INT_16])
              (by simp [INT_32]) (by simp [INT_64]))
            (unpackString_none _ _ _ _ (by decide) (by decide) (by decide) (by decide))
            (unpackListSize_none _ _ _ _ (by decide) (by decide) (by decide) (by decide))
            (unpackByteArray_none _ _ (by decide) (by decide) (by decide))
            (by rw [unpackMapSize, if_neg (by decide), if_neg (by decide),
                  if_pos (by rfl), readUInt16_be2 n (by omega) tail])]
      · refine ⟨218 :: be4 n, ?_, ?_⟩
        · intro c
          simp only [packMapHeader, if_neg l1, if_neg l2, if_neg l3, if_pos hn, pseq,
            writeUInt8, MAP_32, be4]
          simp
        · intro g d u h tail
          rw [List.cons_append,
            unpack_map_case g d u h 218 (be4 n ++ tail) tail n
            (by simp [NULL])
            (unpackBoolean_none _ (by simp [TRUE]) (by simp [FALSE]))
            (unpackNumberOrInteger_none _ _ (by simp [FLOAT_64]) (by omega)
              (by omega) (by simp [INT_8]) (by simp [INT_16])
              (by simp [INT_32]) (by simp [INT_64]))
            (unpackString_none _ _ _ _ (by decide) (by decide) (by decide) (by decide))
            (unpackListSize_none _ _ _ _ (by decide) (by decide) (by decide) (by decide))
            (unpackByteArray_none _ _ (by decide) (by decide) (by decide))
            (by rw [unpackMapSize, if_neg (by decide), if_neg (by decide),
                  if_neg (by decide), if_pos (by rfl), readUInt32_be4 n hn tail])]

/-- For field counts below 256, `packStructHeader` writes a header ending in
the signature byte, and `unpack` consumes the marker and size, handing the
signature and the field loop to `unpackStructWithSize`. -/
theorem structHeader_rt (n sig : Nat) (hn : n < 256) (hsig : sig < 256) :
    ∃ hd : List Nat,
      (∀ c, packStructHeader n sig c = .ok () (c ++ (hd ++ [sig]))) ∧
      (∀ (g : Nat) (d u : Bool) (h : HHook) (tail : Buf),
        unpack (g + 1) d u h ((hd ++ [sig]) ++ tail) =
          unpackStructWithSize g d u h n (sig :: tail)) := by
  by_cases l1 : n < 16
  · refine ⟨[176 + n], ?_, ?_⟩
    · intro c
      simp only [packStructHeader, if_pos l1, pseq, writeUInt8, lor_tiny_struct n l1]
      rw [Nat.mod_eq_of_lt (by omega : 176 + n < 256), Nat.mod_eq_of_lt hsig]
      simp
    · intro g d u h tail
      have hmh := tiny_markerHigh 176 n (Or.inr (Or.inr (Or.inr rfl))) l1
      have hml := tiny_markerLow 176 n (Or.inr (Or.inr (Or.inr rfl))) l1
      rw [List.append_assoc, List.singleton_append, List.singleton_append,
        unpack_struct_case g d u h (176 + n) (sig :: tail) (sig :: tail) n
        (by simp only [NULL]; omega)
        (unpackBoolean_none _ (by simp only [TRUE]; omega) (by simp only [FALSE]; omega))
        (unpackNumberOrInteger_none _ _ (by simp only [FLOAT_64]; omega) (by omega)
          (by omega) (by simp only [INT_8]; omega) (by simp only [INT_16]; omega)
          (by simp only [INT_32]; omega) (by simp only [INT_64]; omega))
        (unpackString_none _ _ _ _ (by rw [hmh]; decide) (by simp only [STRING_8]; omega)
          (by simp only [STRING_16]; omega) (by simp only [STRING_32]; omega))
        (unpackListSize_none _ _ _ _ (by rw [hmh]; decide) (by simp only [LIST_8]; omega)
          (by simp only [LIST_16]; omega) (by simp only [LIST_32]; omega))
        (unpackByteArray_none _ _ (by simp only [BYTES_8]; omega)
          (by simp only [BYTES_16]; omega) (by simp only [BYTES_32]; omega))
        (unpackMapSize_none _ _ _ _ (by rw [hmh]; decide) (by simp only [MAP_8]; omega)
          (by simp only [MAP_16]; omega) (by simp only [MAP_32]; omega))
        (by rw [unpackStructSize, if_pos (by rw [hmh]; rfl), hml])]
  · refine ⟨[220, n], ?_, ?_⟩
    · intro c
      simp only [packStructHeader, if_neg l1, if_pos hn, pseq, writeUInt8, STRUCT_8]
      rw [Nat.mod_eq_of_lt (by omega : n < 256), Nat.mod_eq_of_lt hsig]
      simp
    · intro g d u h tail
      rw [List.append_assoc, List.cons_append, List.singleton_append,
        List.singleton_append,
        unpack_struct_case g d u h 220 (n :: sig :: tail) (sig :: tail) n
        (by simp [NULL])
        (unpackBoolean_none _ (by simp [TRUE]) (by simp [FALSE]))
        (unpackNumberOrInteger_none _ _ (by simp [FLOAT_64]) (by omega)
          (by omega) (by simp [INT_8]) (by simp [INT_16])
          (by simp [INT_32]) (by simp [INT_64]))
        (unpackString_none _ _ _ _ (by decide) (by decide) (by decide) (by decide))
        (unpackListSize_none _ _ _ _ (by decide) (by decide) (by decide) (by decide))
        (unpackByteArray_none _ _ (by decide) (by decide) (by decide))
        (unpackMapSize_none _ _ _ _ (by decide) (by decide) (by decide) (by decide))
        (by rw [unpackStructSize, if_neg (by decide), if_pos (by rfl)]
            simp [readUInt8])]

/-! ## Loop round-trips -/

theorem objInsert_fresh (k : List Nat) (v : Value) (acc : List (List Nat × Value))
    (h : k ∉ acc.map Prod.fst) : objInsert k v acc = acc ++ [(k, v)] := by
  induction acc with
  | nil => rfl
  | cons p ps ih =>
    obtain ⟨k1, v1⟩ := p
    simp only [List.map_cons, List.mem_cons] at h
    push_neg at h
    simp only [objInsert, if_neg (by simpa using Ne.symm h.1)]
    rw [ih h.2]
    simp

theorem countDefined_nil : countDefined [] = 0 := rfl

theorem countDefined_cons (k : List Nat) (v : Value) (es : List (List Nat × Value)) :
    countDefined ((k, v) :: es) =
      if isUndef v then countDefined es else countDefined es + 1 := by
  by_cases hu : isUndef v <;> simp [countDefined, List.filter_cons, hu]

theorem countDefined_le (es : List (List Nat × Value)) : countDefined es ≤ es.length :=
  List.length_filter_le _ es

theorem DPairs_keys_sublist (es : List (List Nat × Value)) :
    ((DPairs es).map Prod.fst).Sublist (es.map Prod.fst) := by
  induction es with
  | nil => simp [DPairs]
  | cons p ps ih =>
    obtain ⟨k, v⟩ := p
    by_cases hu : isUndef v
    · simp only [DPairs, if_pos hu, List.map_cons]
      exact ih.cons k
    · simp only [DPairs, if_neg hu, List.map_cons]
      exact ih.cons₂ k

theorem rtElems_mem (xs : List Value) (h : rtElems xs = true) :
    ∀ x ∈ xs, isUndef x = true ∨ rtB x = true := by
  induction xs with
  | nil => intro x hx; cases hx
  | cons y ys ih =>
    simp only [rtElems, Bool.and_eq_true, Bool.or_eq_true] at h
    intro x hx
    rcases List.mem_cons.mp hx with rfl | hmem
    · exact h.1
    · exact ih h.2 x hmem

theorem rtPairs_mem (es : List (List Nat × Value)) (h : rtPairs es = true) :
    ∀ p ∈ es, wfStr p.1 = true ∧ (isUndef p.2 = true ∨ rtB p.2 = true) := by
  induction es with
  | nil => intro p hp; cases hp
  | cons q qs ih =>
    obtain ⟨k, v⟩ := q
    simp only [rtPairs, Bool.and_eq_true, Bool.or_eq_true] at h
    intro p hp
    rcases List.mem_cons.mp hp with h1 | hmem
    · rw [h1]
      exact ⟨h.1.1, h.1.2⟩
    · exact ih h.2 p hmem

theorem rtFields_mem (fs : List Value) (h : rtFields fs = true) :
    ∀ f ∈ fs, rtB f = true := by
  induction fs with
  | nil => intro f hf; cases hf
  | cons g gs ih =>
    simp only [rtFields, Bool.and_eq_true] at h
    intro f hf
    rcases List.mem_cons.mp hf with rfl | hmem
    · exact h.1
    · exact ih h.2 f hmem

/-- The list-branch loop round-trip: each element is written (with
`undefined` substituted by null) and the element loop of the decoder reads
them back elementwise. -/
theorem elems_rt (xs : List Value) (ihs : ∀ x ∈ xs, isUndef x = false → RT x) :
    ∃ b : List Nat,
      (∀ fuel c, dNL xs ≤ fuel → packElems fuel true dId xs c = .ok () (c ++ b)) ∧
      (∀ fuel rest, dNL xs ≤ fuel →
        unpackListWithSize fuel false false hId xs.length (b ++ rest) =
          .ok (DElems xs, rest)) := by
  induction xs with
  | nil =>
    refine ⟨[], ?_, ?_⟩
    · intro fuel c hf
      match fuel, hf with
      | f + 1, _ => simp [packElems]
    · intro fuel rest hf
      match fuel, hf with
      | f + 1, _ => simp [unpackListWithSize, DElems]
  | cons x xs ih =>
    have hx : RT (if isUndef x then Value.null else x) := by
      by_cases hu : isUndef x
      · simpa [hu] using rt_null
      · simpa [hu] using ihs x (List.mem_cons_self x xs) (by simpa using hu)
    obtain ⟨bx, hpx, hdx⟩ := hx
    obtain ⟨bs', hps, hds⟩ := ih (fun y hy hu => ihs y (List.mem_cons_of_mem x hy) hu)
    refine ⟨bx ++ bs', ?_, ?_⟩
    · intro fuel c hf
      rw [dNL_cons] at hf
      match fuel, hf with
      | f + 1, hf =>
        have hdx1 : dN (if isUndef x then Value.null else x) ≤ f :=
          le_trans (dN_sub_le x) (by omega)
        simp only [packElems, (packable_packFields_fst f true dId).1,
          hpx f c c hdx1, hps f (c ++ bx) (by omega)]
        simp
    · intro fuel rest hf
      rw [dNL_cons] at hf
      match fuel, hf with
      | f + 1, hf =>
        have hdx1 : dN (if isUndef x then Value.null else x) ≤ f :=
          le_trans (dN_sub_le x) (by omega)
        simp only [List.length_cons, unpackListWithSize, List.append_assoc,
          hdx f (bs' ++ rest) hdx1, hds f rest (by omega)]
        simp [DElems, D_sub]

/-- The map-branch loop round-trip: kept entries are written as key string
then value, and the decoder's pair loop reassembles exactly the kept
entries in order (fresh keys append to the accumulator object). -/
theorem pairs_rt (es : List (List Nat × Value))
    (ihs : ∀ p ∈ es, wfStr p.1 = true ∧ (isUndef p.2 = true ∨ RT p.2))
    (hnd : ((DPairs es).map Prod.fst).Nodup) :
    ∃ b : List Nat,
      (∀ fuel c, dNP es ≤ fuel → packPairs fuel true dId es c = .ok () (c ++ b)) ∧
      (∀ fuel rest acc, dNP es ≤ fuel →
        (∀ k ∈ (DPairs es).map Prod.fst, k ∉ acc.map Prod.fst) →
        unpackMapWithSize fuel false false hId (countDefined es) acc (b ++ rest) =
          .ok (acc ++ DPairs es, rest)) := by
  induction es with
  | nil =>
    refine ⟨[], ?_, ?_⟩
    · intro fuel c hf
      match fuel, hf with
      | f + 1, _ => simp [packPairs]
    · intro fuel rest acc hf _
      match fuel, hf with
      | f + 1, _ => simp [unpackMapWithSize, countDefined_nil, DPairs]
  | cons q qs ih =>
    obtain ⟨k, v⟩ := q
    have hk : wfStr k = true := (ihs (k, v) (List.mem_cons_self _ _)).1
    have hqs := fun p hp => ihs p (List.mem_cons_of_mem (k, v) hp)
    by_cases hu : isUndef v
    · have hnd' : ((DPairs qs).map Prod.fst).Nodup := by
        simpa [DPairs, if_pos hu] using hnd
      obtain ⟨b', hp', hd'⟩ := ih hqs hnd'
      refine ⟨b', ?_, ?_⟩
      · intro fuel c hf
        rw [dNP_cons] at hf
        match fuel, hf with
        | f + 1, hf =>
          simp only [packPairs, if_pos hu]
          exact hp' f c (by omega)
      · intro fuel rest acc hf hfresh
        rw [countDefined_cons, if_pos hu]
        have hfresh' : ∀ x ∈ (DPairs qs).map Prod.fst, x ∉ acc.map Prod.fst := by
          intro x hx
          exact hfresh x (by simpa [DPairs, if_pos hu] using hx)
        rw [dNP_cons] at hf
        rw [hd' fuel rest acc (by omega) hfresh']
        simp [DPairs, if_pos hu]
    · obtain ⟨kb, hkp, hkd⟩ := str_rt k hk
      have hv : RT v := by
        rcases (ihs (k, v) (List.mem_cons_self _ _)).2 with h1 | h2
        · exact absurd h1 (by simpa using hu)
        · exact h2
      obtain ⟨bv, hpv, hdv⟩ := hv
      have hnd2 : k ∉ (DPairs qs).map Prod.fst ∧ ((DPairs qs).map Prod.fst).Nodup := by
        have : (DPairs ((k, v) :: qs)).map Prod.fst = k :: (DPairs qs).map Prod.fst := by
          simp [DPairs, if_neg hu]
        rw [this] at hnd
        exact List.nodup_cons.mp hnd
      obtain ⟨b', hp', hd'⟩ := ih hqs hnd2.2
      refine ⟨kb ++ (bv ++ b'), ?_, ?_⟩
      · intro fuel c hf
        rw [dNP_cons] at hf
        match fuel, hf with
        | f + 1, hf =>
          simp only [packPairs, if_neg hu, hkp c,
            (packable_packFields_fst f true dId).1,
            hpv f (c ++ kb) (c ++ kb) (by omega),
            hp' f ((c ++ kb) ++ bv) (by omega)]
          simp
      · intro fuel rest acc hf hfresh
        rw [dNP_cons] at hf
        match fuel, hf with
        | f + 1, hf =>
          have hkeys : (DPairs ((k, v) :: qs)).map Prod.fst =
              k :: (DPairs qs).map Prod.fst := by
            simp [DPairs, if_neg hu]
          have hkacc : k ∉ acc.map Prod.fst := by
            apply hfresh
            rw [hkeys]
            exact List.mem_cons_self _ _
          rw [countDefined_cons, if_neg (by simpa using hu)]
          simp only [unpackMapWithSize, List.append_assoc]
          obtain ⟨f1, rfl⟩ : ∃ f1, f = f1 + 1 := by
            refine ⟨f - 1, ?_⟩
            have := dNP_pos qs
            omega
          simp only [hkd f1 false false hId (bv ++ (b' ++ rest)),
            hdv (f1 + 1) (b' ++ rest) (by omega)]
          have hobj : objInsert (keyOf (.str k)) (D v) acc = acc ++ [(k, D v)] :=
            objInsert_fresh k (D v) acc hkacc
          rw [hobj]
          have hfresh2 : ∀ x ∈ (DPairs qs).map Prod.fst,
              x ∉ (acc ++ [(k, D v)]).map Prod.fst := by
            intro x hx
            simp only [List.map_append, List.mem_append, List.map_cons, List.map_nil,
              List.mem_singleton]
            push_neg
            constructor
            · exact hfresh x (by rw [hkeys]; exact List.mem_cons_of_mem _ hx)
            · intro hxk
              exact hnd2.1 (by simpa [hxk] using hx)
          rw [hd' (f1 + 1) rest (acc ++ [(k, D v)]) (by omega) hfresh2]
          simp [DPairs, if_neg hu]

/-- The struct-field loops: the eagerly prepared closures write the fields
in order, and the decoder's field loop reads them back. -/
theorem fields_rt (fs : List Value) (ihs : ∀ f ∈ fs, RT f) :
    ∃ b : List Nat,
      (∀ fuel ch c, dNF fs ≤ fuel →
        (packFields fuel true dId fs ch).2.length = fs.length ∧
        runClosures ((packFields fuel true dId fs ch).2) c = .ok () (c ++ b)) ∧
      (∀ fuel rest, dNF fs ≤ fuel →
        unpackListWithSize fuel false false hId fs.length (b ++ rest) =
          .ok (DFields fs, rest)) := by
  induction fs with
  | nil =>
    refine ⟨[], ?_, ?_⟩
    · intro fuel ch c hf
      match fuel, hf with
      | f + 1, _ => simp [packFields, runClosures]
    · intro fuel rest hf
      match fuel, hf with
      | f + 1, _ => simp [unpackListWithSize, DFields]
  | cons g gs ih =>
    have hg : RT g := ihs g (List.mem_cons_self g gs)
    obtain ⟨bg, hpg, hdg⟩ := hg
    obtain ⟨bs', hps, hds⟩ := ih (fun y hy => ihs y (List.mem_cons_of_mem g hy))
    refine ⟨bg ++ bs', ?_, ?_⟩
    · intro fuel ch c hf
      rw [dNF_cons] at hf
      match fuel, hf with
      | f + 1, hf =>
        have h1 := hps f ((packable f true dId g ch).1) c (by omega)
        constructor
        · simp only [packFields, List.length_cons]
          rw [h1.1]
        · simp only [packFields, runClosures]
          show pseq ((packable f true dId g ch).2)
              (runClosures (packFields f true dId gs (packable f true dId g ch).1).2) c =
            PRes.ok () (c ++ (bg ++ bs'))
          simp only [pseq, hpg f ch c (by omega)]
          rw [(hps f ((packable f true dId g ch).1) (c ++ bg) (by omega)).2]
          simp
    · intro fuel rest hf
      rw [dNF_cons] at hf
      match fuel, hf with
      | f + 1, hf =>
        simp only [List.length_cons, unpackListWithSize, List.append_assoc,
          hdg f (bs' ++ rest) (by omega), hds f rest (by omega)]
        simp [DFields]

/-! ## The main round-trip theorem -/

/-- Every value in the round-trippable domain packs to a byte sequence that
unpacks back to its decoded image (default flags, identity hooks). -/
theorem rt_of_rtB (v : Value) (hv : rtB v = true) : RT v := by
  suffices H : ∀ n v, dN v ≤ n → rtB v = true → RT v from H (dN v) v le_rfl hv
  intro n
  induction n with
  | zero =>
    intro v hd _
    have := dN_pos v
    omega
  | succ n ih =>
    intro v hd hr
    cases v with
    | null => exact rt_null
    | bool b => exact rt_bool b
    | float bits =>
      refine rt_float bits ?_
      simpa [rtB] using hr
    | int i =>
      have h : -9223372036854775808 ≤ i ∧ i < 9223372036854775808 := by
        simpa [rtB] using hr
      exact rt_int i h.1 h.2
    | bigintV i => simp [rtB] at hr
    | undef => simp [rtB] at hr
    | str s => exact rt_str s (by simpa [rtB, wfStr] using hr)
    | bytes bs =>
      have h : bs.length < 4294967296 ∧ ∀ x ∈ bs, -128 ≤ x ∧ x < 128 := by
        simpa [rtB] using hr
      exact rt_bytes bs h.1 h.2
    | list xs =>
      have hdn : dN (.list xs) = dNL xs + 1 := by simp [dN]
      have h2 : xs.length < 4294967296 ∧ rtElems xs = true := by
        simpa [rtB] using hr
      have hdl : dNL xs ≤ n := by rw [hdn] at hd; omega
      have ihs : ∀ x ∈ xs, isUndef x = false → RT x := by
        intro x hx hu
        rcases rtElems_mem xs h2.2 x hx with h1 | h1
        · rw [hu] at h1; cases h1
        · exact ih x (le_trans (dN_le_dNL x xs hx) hdl) h1
      obtain ⟨bE, hpE, hdE⟩ := elems_rt xs ihs
      obtain ⟨hdr, hph, hdh⟩ := listHeader_rt xs.length h2.1
      refine ⟨hdr ++ bE, ?_, ?_⟩
      · intro fuel ch c hf
        rw [hdn] at hf
        match fuel, hf with
        | f + 1, hf =>
          simp only [packable, dId, hph c]
          rw [hpE f (c ++ hdr) (by omega)]
          simp
      · intro fuel rest hf
        rw [hdn] at hf
        match fuel, hf with
        | f + 1, hf =>
          rw [List.append_assoc, hdh f false false hId (bE ++ rest),
            hdE f rest (by omega)]
          simp [D]
    | map es =>
      have hdn : dN (.map es) = dNP es + 1 := by simp [dN]
      have h2 : es.length < 4294967296 ∧ (es.map Prod.fst).Nodup ∧ rtPairs es = true := by
        have h0 : (es.length < 4294967296 ∧ (es.map Prod.fst).Nodup) ∧ rtPairs es = true := by
          simpa [rtB] using hr
        exact ⟨h0.1.1, h0.1.2, h0.2⟩
      have hdp : dNP es ≤ n := by rw [hdn] at hd; omega
      have ihs : ∀ p ∈ es, wfStr p.1 = true ∧ (isUndef p.2 = true ∨ RT p.2) := by
        intro p hp
        obtain ⟨hw, hor⟩ := rtPairs_mem es h2.2.2 p hp
        refine ⟨hw, ?_⟩
        rcases hor with h1 | h1
        · exact Or.inl h1
        · exact Or.inr (ih p.2 (le_trans (dN_le_dNP p es hp) hdp) h1)
      have hnd : ((DPairs es).map Prod.fst).Nodup :=
        h2.2.1.sublist (DPairs_keys_sublist es)
      obtain ⟨bP, hpP, hdP⟩ := pairs_rt es ihs hnd
      obtain ⟨hdr, hph, hdh⟩ :=
        mapHeader_rt (countDefined es) (by have := countDefined_le es; omega)
      refine ⟨hdr ++ bP, ?_, ?_⟩
      · intro fuel ch c hf
        rw [hdn] at hf
        match fuel, hf with
        | f + 1, hf =>
          simp only [packable, dId, hph c]
          rw [hpP f (c ++ hdr) (by omega)]
          simp
      · intro fuel rest hf
        rw [hdn] at hf
        match fuel, hf with
        | f + 1, hf =>
          rw [List.append_assoc, hdh f false false hId (bP ++ rest),
            hdP f rest [] (by omega) (by simp)]
          simp [D]
    | struct sig fs =>
      have hdn : dN (.struct sig fs) = dNF fs + 2 := by simp [dN]
      have h2 : sig < 256 ∧ fs.length < 256 ∧ rtFields fs = true := by
        have h0 : (sig < 256 ∧ fs.length < 256) ∧ rtFields fs = true := by
          simpa [rtB] using hr
        exact ⟨h0.1.1, h0.1.2, h0.2⟩
      have hdf : dNF fs ≤ n - 1 := by rw [hdn] at hd; have := dNF_pos fs; omega
      have ihs : ∀ f ∈ fs, RT f := by
        intro f hf
        exact ih f (le_trans (dN_le_dNF f fs hf) (by omega)) (rtFields_mem fs h2.2.2 f hf)
      obtain ⟨bF, hpF, hdF⟩ := fields_rt fs ihs
      obtain ⟨hdr, hph, hdh⟩ := structHeader_rt fs.length sig h2.2.1 h2.1
      refine ⟨(hdr ++ [sig]) ++ bF, ?_, ?_⟩
      · intro fuel ch c hf
        rw [hdn] at hf
        match fuel, hf with
        | f + 1, hf =>
          have hlen := (hpF f ch c (by omega)).1
          simp only [packable, dId]
          show packStruct sig (packFields f true dId fs ch).2 c =
            .ok () (c ++ ((hdr ++ [sig]) ++ bF))
          rw [packStruct, hlen]
          show pseq (packStructHeader fs.length sig)
            (runClosures (packFields f true dId fs ch).2) c =
            .ok () (c ++ ((hdr ++ [sig]) ++ bF))
          simp only [pseq, hph c]
          rw [(hpF f ch (c ++ (hdr ++ [sig])) (by omega)).2]
          simp
      · intro fuel rest hf
        rw [hdn] at hf
        match fuel, hf with
        | f + 1, hf =>
          rw [List.append_assoc, hdh f false false hId (bF ++ rest)]
          obtain ⟨g, rfl⟩ : ∃ g, f = g + 1 := by
            have := dNF_pos fs
            exact ⟨f - 1, by omega⟩
          simp only [unpackStructWithSize, readUInt8]
          rw [hdF g rest (by omega)]
          simp [hId, D]

/-! ## Decoded-image simplification -/

theorem noUndef_not_undef (v : Value) (h : noUndefB v = true) : isUndef v = false := by
  cases v <;> simp_all [noUndefB, isUndef]

theorem noUndefL_mem (xs : List Value) (h : noUndefL xs = true) :
    ∀ x ∈ xs, noUndefB x = true := by
  induction xs with
  | nil => intro x hx; cases hx
  | cons y ys ih =>
    simp only [noUndefL, Bool.and_eq_true] at h
    intro x hx
    rcases List.mem_cons.mp hx with rfl | hmem
    · exact h.1
    · exact ih h.2 x hmem

theorem noUndefP_mem (es : List (List Nat × Value)) (h : noUndefP es = true) :
    ∀ p ∈ es, noUndefB p.2 = true := by
  induction es with
  | nil => intro p hp; cases hp
  | cons q qs ih =>
    obtain ⟨k, v⟩ := q
    simp only [noUndefP, Bool.and_eq_true] at h
    intro p hp
    rcases List.mem_cons.mp hp with h1 | hmem
    · rw [h1]; exact h.1
    · exact ih h.2 p hmem

theorem DElems_eq (xs : List Value) (h : ∀ x ∈ xs, isUndef x = false ∧ D x = x) :
    DElems xs = xs := by
  induction xs with
  | nil => rfl
  | cons y ys ih =>
    have hy := h y (List.mem_cons_self y ys)
    simp only [DElems]
    rw [if_neg (by simp [hy.1])]
    rw [hy.2, ih (fun x hx => h x (List.mem_cons_of_mem y hx))]

theorem DFields_eq (fs : List Value) (h : ∀ f ∈ fs, D f = f) : DFields fs = fs := by
  induction fs with
  | nil => rfl
  | cons g gs ih =>
    simp only [DFields]
    rw [h g (List.mem_cons_self g gs), ih (fun y hy => h y (List.mem_cons_of_mem g hy))]

theorem DPairs_eq (es : List (List Nat × Value))
    (h : ∀ p ∈ es, isUndef p.2 = true ∨ D p.2 = p.2) :
    DPairs es = (es.filter (fun p => !isUndef p.2)).map (fun p => (p.1, D p.2)) := by
  induction es with
  | nil => rfl
  | cons q qs ih =>
    obtain ⟨k, v⟩ := q
    by_cases hu : isUndef v
    · simp only [DPairs, if_pos hu, List.filter_cons]
      rw [ih (fun p hp => h p (List.mem_cons_of_mem _ hp))]
      simp [hu]
    · simp only [DPairs, if_neg hu, List.filter_cons]
      rw [ih (fun p hp => h p (List.mem_cons_of_mem _ hp))]
      simp [hu]

theorem map_pairs_eq (es : List (List Nat × Value)) (h : ∀ p ∈ es, D p.2 = p.2) :
    es.map (fun p => (p.1, D p.2)) = es := by
  induction es with
  | nil => rfl
  | cons q qs ih =>
    obtain ⟨k, v⟩ := q
    simp only [List.map_cons]
    rw [show D (k, v).2 = v from h (k, v) (List.mem_cons_self _ _)]
    rw [ih (fun p hp => h p (List.mem_cons_of_mem _ hp))]

/-- On values with no nested `undefined`, the decoded image is the value
itself. -/
theorem D_eq_self (v : Value) (h : noUndefB v = true) : D v = v := by
  suffices H : ∀ n v, dN v ≤ n → noUndefB v = true → D v = v from H (dN v) v le_rfl h
  intro n
  induction n with
  | zero =>
    intro v hd _
    have := dN_pos v
    omega
  | succ n ih =>
    intro v hd hn
    cases v with
    | list xs =>
      have hdl : dNL xs ≤ n := by simp only [dN] at hd; omega
      have hl := noUndefL_mem xs (by simpa [noUndefB] using hn)
      have hx : DElems xs = xs := by
        apply DElems_eq
        intro x hx
        refine ⟨noUndef_not_undef x (hl x hx), ?_⟩
        exact ih x (le_trans (dN_le_dNL x xs hx) hdl) (hl x hx)
      simp [D, hx]
    | map es =>
      have hdp : dNP es ≤ n := by simp only [dN] at hd; omega
      have hp := noUndefP_mem es (by simpa [noUndefB] using hn)
      have hDs : ∀ p ∈ es, D p.2 = p.2 := fun p hpp =>
        ih p.2 (le_trans (dN_le_dNP p es hpp) hdp) (hp p hpp)
      have h1 := DPairs_eq es (fun p hpp => Or.inr (hDs p hpp))
      have h2 : es.filter (fun p => !isUndef p.2) = es := by
        apply List.filter_eq_self.mpr
        intro p hpp
        simp [noUndef_not_undef p.2 (hp p hpp)]
      have h3 : DPairs es = es := by
        rw [h1, h2]
        exact map_pairs_eq es hDs
      simp [D, h3]
    | struct sig fs =>
      have hdf : dNF fs ≤ n := by simp only [dN] at hd; omega
      have hl := noUndefL_mem fs (by simpa [noUndefB] using hn)
      have hx : DFields fs = fs := by
        apply DFields_eq
        intro f hf
        exact ih f (le_trans (dN_le_dNF f fs hf) hdf) (hl f hf)
      simp [D, hx]
    | null => simp [D]
    | bool b => simp [D]
    | float bits => simp [D]
    | int i => simp [D]
    | bigintV i => simp [D]
    | str s => simp [D]
    | bytes bs => simp [D]
    | undef => simp [noUndefB] at hn

/-! ## Error-shape inversions for the decoder helpers -/

theorem readUInt8_error (buf : Buf) (e : UErr) (h : readUInt8 buf = .error e) :
    e = .outOfBounds := by
  cases buf with
  | nil => simp [readUInt8] at h; exact h.symm
  | cons b r => simp [readUInt8] at h

theorem readN_error (n : Nat) (buf : Buf) (e : UErr) (h : readN n buf = .error e) :
    e = .outOfBounds := by
  unfold readN at h
  split_ifs at h
  simp at h
  exact h.symm

theorem readInt8_error (buf : Buf) (e : UErr) (h : readInt8 buf = .error e) :
    e = .outOfBounds := by
  unfold readInt8 at h
  rcases hr : readUInt8 buf with e1 | p
  · simp only [hr] at h
    simp at h
    rw [← h]
    exact readUInt8_error buf e1 hr
  · simp only [hr] at h
    obtain ⟨a, r⟩ := p
    simp at h

theorem readUInt16_error (buf : Buf) (e : UErr) (h : readUInt16 buf = .error e) :
    e = .outOfBounds := by
  unfold readUInt16 at h
  rcases hr : readN 2 buf with e1 | p
  · simp only [hr] at h
    simp at h
    rw [← h]
    exact readN_error 2 buf e1 hr
  · simp only [hr] at h
    obtain ⟨a, r⟩ := p
    simp at h

theorem readInt16_error (buf : Buf) (e : UErr) (h : readInt16 buf = .error e) :
    e = .outOfBounds := by
  unfold readInt16 at h
  rcases hr : readUInt16 buf with e1 | p
  · simp only [hr] at h
    simp at h
    rw [← h]
    exact readUInt16_error buf e1 hr
  · simp only [hr] at h
    obtain ⟨a, r⟩ := p
    simp at h

theorem readUInt32_error (buf : Buf) (e : UErr) (h : readUInt32 buf = .error e) :
    e = .outOfBounds := by
  unfold readUInt32 at h
  rcases hr : readN 4 buf with e1 | p
  · simp only [hr] at h
    simp at h
    rw [← h]
    exact readN_error 4 buf e1 hr
  · simp only [hr] at h
    obtain ⟨a, r⟩ := p
    simp at h

theorem readInt32_error (buf : Buf) (e : UErr) (h : readInt32 buf = .error e) :
    e = .outOfBounds := by
  unfold readInt32 at h
  rcases hr : readUInt32 buf with e1 | p
  · simp only [hr] at h
    simp at h
    rw [← h]
    exact readUInt32_error buf e1 hr
  · simp only [hr] at h
    obtain ⟨a, r⟩ := p
    simp at h

theorem readFloat64_error (buf : Buf) (e : UErr) (h : readFloat64 buf = .error e) :
    e = .outOfBounds := by
  unfold readFloat64 at h
  rcases hr : readN 8 buf with e1 | p
  · simp only [hr] at h
    simp at h
    rw [← h]
    exact readN_error 8 buf e1 hr
  · simp only [hr] at h
    obtain ⟨a, r⟩ := p
    simp at h

theorem unpackItg_error (m : Nat) (buf : Buf) (e : UErr)
    (h : unpackInteger m buf = .error e) : e = .outOfBounds := by
  unfold unpackInteger at h
  split_ifs at h
  · rcases hr : readInt8 buf with e1 | p
    · simp only [hr] at h; simp at h; rw [← h]; exact readInt8_error buf e1 hr
    · simp only [hr] at h; obtain ⟨a, r⟩ := p; simp at h
  · rcases hr : readInt16 buf with e1 | p
    · simp only [hr] at h; simp at h; rw [← h]; exact readInt16_error buf e1 hr
    · simp only [hr] at h; obtain ⟨a, r⟩ := p; simp at h
  · rcases hr : readInt32 buf with e1 | p
    · simp only [hr] at h; simp at h; rw [← h]; exact readInt32_error buf e1 hr
    · simp only [hr] at h; obtain ⟨a, r⟩ := p; simp at h
  · rcases hr : readInt32 buf with e1 | p
    · simp only [hr] at h; simp at h; rw [← h]; exact readInt32_error buf e1 hr
    · obtain ⟨a, r⟩ := p
      simp only [hr] at h
      rcases hr2 : readInt32 r with e2 | p2
      · simp only [hr2] at h; simp at h; rw [← h]; exact readInt32_error r e2 hr2
      · simp only [hr2] at h; obtain ⟨a2, r2⟩ := p2; simp at h

theorem unpackNum_error (m : Nat) (buf : Buf) (e : UErr)
    (h : unpackNumberOrInteger m buf = .error e) : e = .outOfBounds := by
  unfold unpackNumberOrInteger at h
  split_ifs at h
  · rcases hr : readFloat64 buf with e1 | p
    · simp only [hr] at h; simp at h; rw [← h]; exact readFloat64_error buf e1 hr
    · simp only [hr] at h; obtain ⟨a, r⟩ := p; simp at h
  · exact unpackItg_error m buf e h

theorem unpackStr_error (m mh ml : Nat) (buf : Buf) (e : UErr)
    (h : unpackString m mh ml buf = .error e) : e = .outOfBounds := by
  unfold unpackString at h
  split_ifs at h
  · rcases hr : readN ml buf with e1 | p
    · simp only [hr] at h; simp at h; rw [← h]; exact readN_error ml buf e1 hr
    · simp only [hr] at h; obtain ⟨a, r⟩ := p; simp at h
  · rcases hr : readUInt8 buf with e1 | p
    · simp only [hr] at h; simp at h; rw [← h]; exact readUInt8_error buf e1 hr
    · obtain ⟨n, r⟩ := p
      simp only [hr] at h
      rcases hr2 : readN n r with e2 | p2
      · simp only [hr2] at h; simp at h; rw [← h]; exact readN_error n r e2 hr2
      · simp only [hr2] at h; obtain ⟨a, r2⟩ := p2; simp at h
  · rcases hr : readUInt16 buf with e1 | p
    · simp only [hr] at h; simp at h; rw [← h]; exact readUInt16_error buf e1 hr
    · obtain ⟨n, r⟩ := p
      simp only [hr] at h
      rcases hr2 : readN n r with e2 | p2
      · simp only [hr2] at h; simp at h; rw [← h]; exact readN_error n r e2 hr2
      · simp only [hr2] at h; obtain ⟨a, r2⟩ := p2; simp at h
  · rcases hr : readUInt32 buf with e1 | p
    · simp only [hr] at h; simp at h; rw [← h]; exact readUInt32_error buf e1 hr
    · obtain ⟨n, r⟩ := p
      simp only [hr] at h
      rcases hr2 : readN n r with e2 | p2
      · simp only [hr2] at h; simp at h; rw [← h]; exact readN_error n r e2 hr2
      · simp only [hr2] at h; obtain ⟨a, r2⟩ := p2; simp at h

theorem unpackLS_error (m mh ml : Nat) (buf : Buf) (e : UErr)
    (h : unpackListSize m mh ml buf = .error e) : e = .outOfBounds := by
  unfold unpackListSize at h
  split_ifs at h
  · rcases hr : readUInt8 buf with e1 | p
    · simp only [hr] at h; simp at h; rw [← h]; exact readUInt8_error buf e1 hr
    · simp only [hr] at h; obtain ⟨a, r⟩ := p; simp at h
  · rcases hr : readUInt16 buf with e1 | p
    · simp only [hr] at h; simp at h; rw [← h]; exact readUInt16_error buf e1 hr
    · simp only [hr] at h; obtain ⟨a, r⟩ := p; simp at h
  · rcases hr : readUInt32 buf with e1 | p
    · simp only [hr] at h; simp at h; rw [← h]; exact readUInt32_error buf e1 hr
    · simp only [hr] at h; obtain ⟨a, r⟩ := p; simp at h

theorem unpackMS_error (m mh ml : Nat) (buf : Buf) (e : UErr)
    (h : unpackMapSize m mh ml buf = .error e) : e = .outOfBounds := by
  unfold unpackMapSize at h
  split_ifs at h
  · rcases hr : readUInt8 buf with e1 | p
    · simp only [hr] at h; simp at h; rw [← h]; exact readUInt8_error buf e1 hr
    · simp only [hr] at h; obtain ⟨a, r⟩ := p; simp at h
  · rcases hr : readUInt16 buf with e1 | p
    · simp only [hr] at h; simp at h; rw [← h]; exact readUInt16_error buf e1 hr
    · simp only [hr] at h; obtain ⟨a, r⟩ := p; simp at h
  · rcases hr : readUInt32 buf with e1 | p
    · simp only [hr] at h; simp at h; rw [← h]; exact readUInt32_error buf e1 hr
    · simp only [hr] at h; obtain ⟨a, r⟩ := p; simp at h

theorem unpackSS_error (m mh ml : Nat) (buf : Buf) (e : UErr)
    (h : unpackStructSize m mh ml buf = .error e) : e = .outOfBounds := by
  unfold unpackStructSize at h
  split_ifs at h
  · rcases hr : readUInt8 buf with e1 | p
    · simp only [hr] at h; simp at h; rw [← h]; exact readUInt8_error buf e1 hr
    · simp only [hr] at h; obtain ⟨a, r⟩ := p; simp at h
  · rcases hr : readUInt16 buf with e1 | p
    · simp only [hr] at h; simp at h; rw [← h]; exact readUInt16_error buf e1 hr
    · simp only [hr] at h; obtain ⟨a, r⟩ := p; simp at h

theorem unpackBA_error (m : Nat) (buf : Buf) (e : UErr)
    (h : unpackByteArray m buf = .error e) : e = .outOfBounds := by
  have hw : ∀ n b2 e2, unpackByteArrayWithSize n b2 = .error e2 → e2 = UErr.outOfBounds := by
    intro n b2 e2 h2
    unfold unpackByteArrayWithSize at h2
    rcases hr : readN n b2 with e1 | p
    · rw [hr] at h2; simp at h2; rw [← h2]; exact readN_error n b2 e1 hr
    · rw [hr] at h2; obtain ⟨a, r⟩ := p; simp at h2
  unfold unpackByteArray at h
  split_ifs at h
  · rcases hr : readUInt8 buf with e1 | p
    · simp only [hr] at h; simp at h; rw [← h]; exact readUInt8_error buf e1 hr
    · obtain ⟨n, r⟩ := p
      simp only [hr] at h
      rcases hr2 : unpackByteArrayWithSize n r with e2 | p2
      · simp only [hr2] at h; simp at h; rw [← h]; exact hw n r e2 hr2
      · simp only [hr2] at h; obtain ⟨a, r2⟩ := p2; simp at h
  · rcases hr : readUInt16 buf with e1 | p
    · simp only [hr] at h; simp at h; rw [← h]; exact readUInt16_error buf e1 hr
    · obtain ⟨n, r⟩ := p
      simp only [hr] at h
      rcases hr2 : unpackByteArrayWithSize n r with e2 | p2
      · simp only [hr2] at h; simp at h; rw [← h]; exact hw n r e2 hr2
      · simp only [hr2] at h; obtain ⟨a, r2⟩ := p2; simp at h
  · rcases hr : readUInt32 buf with e1 | p
    · simp only [hr] at h; simp at h; rw [← h]; exact readUInt32_error buf e1 hr
    · obtain ⟨n, r⟩ := p
      simp only [hr] at h
      rcases hr2 : unpackByteArrayWithSize n r with e2 | p2
      · simp only [hr2] at h; simp at h; rw [← h]; exact hw n r e2 hr2
      · simp only [hr2] at h; obtain ⟨a, r2⟩ := p2; simp at h

/-- If every interpretation attempt declined the marker, the marker is not
in the recognized set. -/
theorem nones_unrecognized (m : Nat) (bn bn' bs0 bs1 bl by0 by1 bp bt : Buf)
    (hm : ¬ m = NULL)
    (hb : unpackBoolean m = none)
    (hn : unpackNumberOrInteger m bn = .ok (none, bn'))
    (hs : unpackString m (m &&& 0xf0) (m &&& 0x0f) bs0 = .ok (none, bs1))
    (hl : unpackListSize m (m &&& 0xf0) (m &&& 0x0f) bl = .ok none)
    (hy : unpackByteArray m by0 = .ok (none, by1))
    (hp : unpackMapSize m (m &&& 0xf0) (m &&& 0x0f) bp = .ok none)
    (ht : unpackStructSize m (m &&& 0xf0) (m &&& 0x0f) bt = .ok none) :
    recognizedMarker m = false := by
  by_contra hcon
  have hrec : recognizedMarker m = true := by
    revert hcon
    cases recognizedMarker m <;> simp
  have hd := hrec
  simp only [recognizedMarker, Bool.or_eq_true, decide_eq_true_eq,
    Bool.and_eq_true] at hd
  rcases hd with
    ((((((((((((((((((((((((((h1 | h2) | h3) | h4) | h5) | h6) | h7) | h8) | h9) | h10)
      | h11) | h12) | h13) | h14) | h15) | h16) | h17) | h18) | h19) | h20) | h21)
      | h22) | h23) | h24) | h25) | h26) | h27) | h28
  · exact hm h1
  · rw [h2] at hb
    simp [unpackBoolean] at hb
  · rw [h3] at hb
    simp [unpackBoolean, TRUE, FALSE] at hb
  · rw [h4] at hn
    rcases hr : readFloat64 bn with e | p
    · simp [unpackNumberOrInteger, hr] at hn
    · obtain ⟨a, r⟩ := p
      simp [unpackNumberOrInteger, hr] at hn
  · unfold unpackNumberOrInteger at hn
    rw [if_neg (by simp only [FLOAT_64]; omega)] at hn
    unfold unpackInteger at hn
    rw [if_pos h5] at hn
    simp at hn
  · unfold unpackNumberOrInteger at hn
    rw [if_neg (by simp only [FLOAT_64]; omega)] at hn
    unfold unpackInteger at hn
    rw [if_neg (by omega), if_pos h6] at hn
    simp at hn
  · rw [h7] at hn
    unfold unpackNumberOrInteger unpackInteger at hn
    rw [if_neg (by decide), if_neg (by decide), if_neg (by decide), if_pos rfl] at hn
    rcases hr : readInt8 bn with e | p
    · simp [hr] at hn
    · obtain ⟨a, r⟩ := p
      simp [hr] at hn
  · rw [h8] at hn
    unfold unpackNumberOrInteger unpackInteger at hn
    rw [if_neg (by decide), if_neg (by decide), if_neg (by decide), if_neg (by decide),
      if_pos rfl] at hn
    rcases hr : readInt16 bn with e | p
    · simp [hr] at hn
    · obtain ⟨a, r⟩ := p
      simp [hr] at hn
  · rw [h9] at hn
    unfold unpackNumberOrInteger unpackInteger at hn
    rw [if_neg (by decide), if_neg (by decide), if_neg (by decide), if_neg (by decide),
      if_neg (by decide), if_pos rfl] at hn
    rcases hr : readInt32 bn with e | p
    · simp [hr] at hn
    · obtain ⟨a, r⟩ := p
      simp [hr] at hn
  · rw [h10] at hn
    unfold unpackNumberOrInteger unpackInteger at hn
    rw [if_neg (by decide), if_neg (by decide), if_neg (by decide), if_neg (by decide),
      if_neg (by decide), if_neg (by decide), if_pos rfl] at hn
    rcases hr : readInt32 bn with e | p
    · simp [hr] at hn
    · obtain ⟨a, r⟩ := p
      rcases hr2 : readInt32 r with e2 | p2
      · simp [hr, hr2] at hn
      · obtain ⟨a2, r2⟩ := p2
        simp [hr, hr2] at hn
  · unfold unpackString at hs
    rw [if_pos h11] at hs
    rcases hr : readN (m &&& 0x0f) bs0 with e | p
    · simp [hr] at hs
    · obtain ⟨a, r⟩ := p
      simp [hr] at hs
  · rw [h12] at hs
    unfold unpackString at hs
    rw [if_neg (by decide), if_pos rfl] at hs
    rcases hr : readUInt8 bs0 with e | p
    · simp [hr] at hs
    · obtain ⟨n, r⟩ := p
      rcases hr2 : readN n r with e2 | p2
      · simp [hr, hr2] at hs
      · obtain ⟨a, r2⟩ := p2
        simp [hr, hr2] at hs
  · rw [h13] at hs
    unfold unpackString at hs
    rw [if_neg (by decide), if_neg (by decide), if_pos rfl] at hs
    rcases hr : readUInt16 bs0 with e | p
    · simp [hr] at hs
    · obtain ⟨n, r⟩ := p
      rcases hr2 : readN n r with e2 | p2
      · simp [hr, hr2] at hs
      · obtain ⟨a, r2⟩ := p2
        simp [hr, hr2] at hs
  · rw [h14] at hs
    unfold unpackString at hs
    rw [if_neg (by decide), if_neg (by decide), if_neg (by decide), if_pos rfl] at hs
    rcases hr : readUInt32 bs0 with e | p
    · simp [hr] at hs
    · obtain ⟨n, r⟩ := p
      rcases hr2 : readN n r with e2 | p2
      · simp [hr, hr2] at hs
      · obtain ⟨a, r2⟩ := p2
        simp [hr, hr2] at hs
  · unfold unpackListSize at hl
    rw [if_pos h15] at hl
    simp at hl
  · rw [h16] at hl
    unfold unpackListSize at hl
    rw [if_neg (by decide), if_pos rfl] at hl
    rcases hr : readUInt8 bl with e | p
    · simp [hr] at hl
    · obtain ⟨n, r⟩ := p
      simp [hr] at hl
  · rw [h17] at hl
    unfold unpackListSize at hl
    rw [if_neg (by decide), if_neg (by decide), if_pos rfl] at hl
    rcases hr : readUInt16 bl with e | p
    · simp [hr] at hl
    · obtain ⟨n, r⟩ := p
      simp [hr] at hl
  · rw [h18] at hl
    unfold unpackListSize at hl
    rw [if_neg (by decide), if_neg (by decide), if_neg (by decide), if_pos rfl] at hl
    rcases hr : readUInt32 bl with e | p
    · simp [hr] at hl
    · obtain ⟨n, r⟩ := p
      simp [hr] at hl
  · rw [h19] at hy
    unfold unpackByteArray at hy
    rw [if_pos rfl] at hy
    rcases hr : readUInt8 by0 with e | p
    · simp [hr] at hy
    · obtain ⟨n, r⟩ := p
      rcases hr2 : unpackByteArrayWithSize n r with e2 | p2
      · simp [hr, hr2] at hy
      · obtain ⟨a, r2⟩ := p2
        simp [hr, hr2] at hy
  · rw [h20] at hy
    unfold unpackByteArray at hy
    rw [if_neg (by decide), if_pos rfl] at hy
    rcases hr : readUInt16 by0 with e | p
    · simp [hr] at hy
    · obtain ⟨n, r⟩ := p
      rcases hr2 : unpackByteArrayWithSize n r with e2 | p2
      · simp [hr, hr2] at hy
      · obtain ⟨a, r2⟩ := p2
        simp [hr, hr2] at hy
  · rw [h21] at hy
    unfold unpackByteArray at hy
    rw [if_neg (by decide), if_neg (by decide), if_pos rfl] at hy
    rcases hr : readUInt32 by0 with e | p
    · simp [hr] at hy
    · obtain ⟨n, r⟩ := p
      rcases hr2 : unpackByteArrayWithSize n r with e2 | p2
      · simp [hr, hr2] at hy
      · obtain ⟨a, r2⟩ := p2
        simp [hr, hr2] at hy
  · unfold unpackMapSize at hp
    rw [if_pos h22] at hp
    simp at hp
  · rw [h23] at hp
    unfold unpackMapSize at hp
    rw [if_neg (by decide), if_pos rfl] at hp
    rcases hr : readUInt8 bp with e | p
    · simp [hr] at hp
    · obtain ⟨n, r⟩ := p
      simp [hr] at hp
  · rw [h24] at hp
    unfold unpackMapSize at hp
    rw [if_neg (by decide), if_neg (by decide), if_pos rfl] at hp
    rcases hr : readUInt16 bp with e | p
    · simp [hr] at hp
    · obtain ⟨n, r⟩ := p
      simp [hr] at hp
  · rw [h25] at hp
    unfold unpackMapSize at hp
    rw [if_neg (by decide), if_neg (by decide), if_neg (by decide), if_pos rfl] at hp
    rcases hr : readUInt32 bp with e | p
    · simp [hr] at hp
    · obtain ⟨n, r⟩ := p
      simp [hr] at hp
  · unfold unpackStructSize at ht
    rw [if_pos h26] at ht
    simp at ht
  · rw [h27] at ht
    unfold unpackStructSize at ht
    rw [if_neg (by decide), if_pos rfl] at ht
    rcases hr : readUInt8 bt with e | p
    · simp [hr] at ht
    · obtain ⟨n, r⟩ := p
      simp [hr] at ht
  · rw [h28] at ht
    unfold unpackStructSize at ht
    rw [if_neg (by decide), if_neg (by decide), if_pos rfl] at ht
    rcases hr : readUInt16 bt with e | p
    · simp [hr] at ht
    · obtain ⟨n, r⟩ := p
      simp [hr] at ht

/-- Whenever decoding (with the identity hydration hook) fails with the
unknown-marker protocol error, the marker it names is outside the
recognized set: no recognized marker ever reaches that error. -/
theorem unpack_unknown_unrecognized (fuel : Nat) :
    (∀ (d u : Bool) (buf : Buf) (k : Nat),
      unpack fuel d u hId buf = .error (.unknownMarker k) →
        recognizedMarker k = false) ∧
    (∀ (d u : Bool) (size : Nat) (buf : Buf) (k : Nat),
      unpackListWithSize fuel d u hId size buf = .error (.unknownMarker k) →
        recognizedMarker k = false) ∧
    (∀ (d u : Bool) (size : Nat) (acc : List (List Nat × Value)) (buf : Buf) (k : Nat),
      unpackMapWithSize fuel d u hId size acc buf = .error (.unknownMarker k) →
        recognizedMarker k = false) ∧
    (∀ (d u : Bool) (size : Nat) (buf : Buf) (k : Nat),
      unpackStructWithSize fuel d u hId size buf = .error (.unknownMarker k) →
        recognizedMarker k = false) := by
  induction fuel with
  | zero =>
    refine ⟨?_, ?_, ?_, ?_⟩
    · intro d u buf k h
      simp [unpack] at h
    · intro d u size buf k h
      simp [unpackListWithSize] at h
    · intro d u size acc buf k h
      simp [unpackMapWithSize] at h
    · intro d u size buf k h
      simp [unpackStructWithSize] at h
  | succ f ih =>
    obtain ⟨ihU, ihL, ihM, ihS⟩ := ih
    have hU : ∀ (d u : Bool) (buf : Buf) (k : Nat),
        unpack (f + 1) d u hId buf = .error (.unknownMarker k) →
          recognizedMarker k = false := by
      intro d u buf k h
      cases buf with
      | nil => simp [unpack, readUInt8] at h
      | cons m bs =>
        simp only [unpack, readUInt8] at h
        by_cases hm : m = NULL
        · simp [hm] at h
        · rw [if_neg hm] at h
          rcases hb : unpackBoolean m with _ | b
          swap
          · simp only [hb] at h
            simp at h
          · simp only [hb] at h
            rcases hn : unpackNumberOrInteger m bs with e | ⟨o, b1⟩
            · simp only [hn] at h
              rw [unpackNum_error m bs e hn] at h
              simp at h
            · cases o with
              | some v =>
                simp only [hn] at h
                split_ifs at h
              | none =>
                simp only [hn] at h
                rcases hsr : unpackString m (m &&& 0xf0) (m &&& 0x0f) b1
                    with e | ⟨os, b2⟩
                · simp only [hsr] at h
                  rw [unpackStr_error m _ _ b1 e hsr] at h
                  simp at h
                · cases os with
                  | some sv =>
                    simp only [hsr] at h
                    simp at h
                  | none =>
                    simp only [hsr] at h
                    rcases hls : unpackListSize m (m &&& 0xf0) (m &&& 0x0f) b2
                        with e | olp
                    · simp only [hls] at h
                      rw [unpackLS_error m _ _ b2 e hls] at h
                      simp at h
                    · cases olp with
                      | some slp =>
                        obtain ⟨size, b3⟩ := slp
                        simp only [hls] at h
                        rcases hres : unpackListWithSize f d u hId size b3
                            with e2 | ⟨xs, b4⟩
                        · simp only [hres] at h
                          simp at h
                          rw [h] at hres
                          exact ihL d u size b3 k hres
                        · simp only [hres] at h
                          simp at h
                      | none =>
                        simp only [hls] at h
                        rcases hba : unpackByteArray m b2 with e | ⟨ob, b3⟩
                        · simp only [hba] at h
                          rw [unpackBA_error m b2 e hba] at h
                          simp at h
                        · cases ob with
                          | some bv =>
                            simp only [hba] at h
                            simp at h
                          | none =>
                            simp only [hba] at h
                            rcases hms : unpackMapSize m (m &&& 0xf0) (m &&& 0x0f) b3
                                with e | omp
                            · simp only [hms] at h
                              rw [unpackMS_error m _ _ b3 e hms] at h
                              simp at h
                            · cases omp with
                              | some smp =>
                                obtain ⟨size, b4⟩ := smp
                                simp only [hms] at h
                                rcases hres : unpackMapWithSize f d u hId size [] b4
                                    with e2 | ⟨es, b5⟩
                                · simp only [hres] at h
                                  simp at h
                                  rw [h] at hres
                                  exact ihM d u size [] b4 k hres
                                · simp only [hres] at h
                                  simp at h
                              | none =>
                                simp only [hms] at h
                                rcases hts : unpackStructSize m (m &&& 0xf0)
                                    (m &&& 0x0f) b3 with e | otp
                                · simp only [hts] at h
                                  rw [unpackSS_error m _ _ b3 e hts] at h
                                  simp at h
                                · cases otp with
                                  | some stp =>
                                    obtain ⟨size, b4⟩ := stp
                                    simp only [hts] at h
                                    exact ihS d u size b4 k h
                                  | none =>
                                    simp only [hts] at h
                                    simp at h
                                    rw [← h]
                                    exact nones_unrecognized m bs b1 b1 b2 b2 b2 b3 b3 b3
                                      hm hb hn hsr hls hba hms hts
    refine ⟨hU, ?_, ?_, ?_⟩
    · intro d u size buf k h
      cases size with
      | zero => simp [unpackListWithSize] at h
      | succ s =>
        simp only [unpackListWithSize] at h
        rcases hr : unpack f d u hId buf with e | ⟨v, b1⟩
        · simp only [hr] at h
          simp at h
          rw [h] at hr
          exact ihU d u buf k hr
        · simp only [hr] at h
          rcases hr2 : unpackListWithSize f d u hId s b1 with e2 | ⟨vs, b2⟩
          · simp only [hr2] at h
            simp at h
            rw [h] at hr2
            exact ihL d u s b1 k hr2
          · simp only [hr2] at h
            simp at h
    · intro d u size acc buf k h
      cases size with
      | zero => simp [unpackMapWithSize] at h
      | succ s =>
        simp only [unpackMapWithSize] at h
        rcases hr : unpack f d u hId buf with e | ⟨key, b1⟩
        · simp only [hr] at h
          simp at h
          rw [h] at hr
          exact ihU d u buf k hr
        · simp only [hr] at h
          rcases hr2 : unpack f d u hId b1 with e2 | ⟨v, b2⟩
          · simp only [hr2] at h
            simp at h
            rw [h] at hr2
            exact ihU d u b1 k hr2
          · simp only [hr2] at h
            exact ihM d u s (objInsert (keyOf key) v acc) b2 k h
    · intro d u size buf k h
      simp only [unpackStructWithSize] at h
      rcases hr : readUInt8 buf with e | ⟨sig, b1⟩
      · simp only [hr] at h
        rw [readUInt8_error buf e hr] at h
        simp at h
      · simp only [hr] at h
        rcases hr2 : unpackListWithSize f d u hId size b1 with e2 | ⟨fields, b2⟩
        · simp only [hr2] at h
          simp at h
          rw [h] at hr2
          exact ihL d u size b1 k hr2
        · simp only [hr2] at h
          simp [hId] at h

/-! ## Remaining helper lemmas -/

/-- An unrecognized marker byte falls through every interpretation attempt
of the cascade and raises the unknown-marker protocol error. -/
theorem unpack_unrecognized (fuel : Nat) (d u : Bool) (h : HHook) (m : Nat)
    (rest : Buf) (hm : recognizedMarker m = false) :
    unpack (fuel + 1) d u h (m :: rest) = .error (.unknownMarker m) := by
  simp only [recognizedMarker, Bool.or_eq_false_iff, Bool.and_eq_false_iff,
    decide_eq_false_iff_not] at hm
  obtain ⟨⟨⟨⟨⟨⟨⟨⟨⟨⟨⟨⟨⟨⟨⟨⟨⟨⟨⟨⟨⟨⟨⟨⟨⟨⟨⟨h1, h2⟩, h3⟩, h4⟩, h5⟩, h6⟩, h7⟩, h8⟩, h9⟩,
    h10⟩, h11⟩, h12⟩, h13⟩, h14⟩, h15⟩, h16⟩, h17⟩, h18⟩, h19⟩, h20⟩, h21⟩, h22⟩,
    h23⟩, h24⟩, h25⟩, h26⟩, h27⟩, h28⟩ := hm
  exact unpack_unknown_case fuel d u h m rest h1
    (unpackBoolean_none m h2 h3)
    (unpackNumberOrInteger_none m rest h4 h5
      (fun hc => h6.elim (fun a => a hc.1) (fun a => a hc.2)) h7 h8 h9 h10)
    (unpackString_none m (m &&& 0xf0) (m &&& 0x0f) rest h11 h12 h13 h14)
    (unpackListSize_none m (m &&& 0xf0) (m &&& 0x0f) rest h15 h16 h17 h18)
    (unpackByteArray_none m rest h19 h20 h21)
    (unpackMapSize_none m (m &&& 0xf0) (m &&& 0x0f) rest h22 h23 h24 h25)
    (unpackStructSize_none m (m &&& 0xf0) (m &&& 0x0f) rest h26 h27 h28)

theorem and255_eq_mod (x : Nat) : x &&& 255 = x % 256 := by
  have := Nat.and_pow_two_sub_one_eq_mod x 8
  norm_num at this
  exact this

theorem shiftRight8_eq_div (n : Nat) : n >>> 8 = n / 256 := by
  have := Nat.shiftRight_eq_div_pow n 8
  norm_num at this
  exact this

/-- On a list whose elements are `undefined` or contain no `undefined`, the
decoded image of the elements is the pointwise undefined-to-null
substitution. -/
theorem DElems_map (xs : List Value)
    (h : ∀ x ∈ xs, isUndef x = true ∨ noUndefB x = true) :
    DElems xs = xs.map (fun x => if isUndef x then Value.null else x) := by
  induction xs with
  | nil => rfl
  | cons y ys ih =>
    have hy := h y (List.mem_cons_self y ys)
    simp only [DElems, List.map_cons]
    rw [ih (fun x hx => h x (List.mem_cons_of_mem y hx))]
    by_cases hu : isUndef y
    · rw [if_pos hu, if_pos hu]
    · rw [if_neg hu, if_neg hu]
      rcases hy with h1 | h1
      · exact absurd h1 hu
      · rw [D_eq_self y h1]

/-- On entries whose kept values contain no `undefined`, the decoded image
of the pairs is the original list with the undefined-valued entries
dropped. -/
theorem DPairs_filter (es : List (List Nat × Value))
    (h : ∀ p ∈ es, isUndef p.2 = true ∨ noUndefB p.2 = true) :
    DPairs es = es.filter (fun p => !isUndef p.2) := by
  rw [DPairs_eq es (fun p hp =>
    (h p hp).elim Or.inl (fun hn => Or.inr (D_eq_self p.2 hn)))]
  apply map_pairs_eq
  intro p hp
  have hmem : p ∈ es := (List.mem_filter.mp hp).1
  have hkept : (!isUndef p.2) = true := (List.mem_filter.mp hp).2
  rcases h p hmem with h1 | h1
  · rw [h1] at hkept
    cases hkept
  · exact D_eq_self p.2 h1

/-! ## The claims -/

/-- **C1** (corrected).  Claimed for every value of the recognized domain
with sizes in the encoder's range; refuted for structures with 256 or more
fields, where `packStructHeader` omits the signature byte
(`claim_C1_refuted`).  Amended to the domain `rtB`, which bounds struct
field counts below 256: every such value containing no `undefined` packs
(with byte arrays enabled and identity hooks) to a byte sequence that
`unpack` (default flags, identity hook) decodes back to the value itself. -/
theorem claim_C1 (v : Value) (hv : rtB v = true) (hn : noUndefB v = true) :
    ∃ b : List Nat, PackTo v b ∧
      ∀ (fuel : Nat) (rest : Buf), dN v ≤ fuel →
        unpack fuel false false hId (b ++ rest) = .ok (v, rest) := by
  obtain ⟨b, hp, hd⟩ := rt_of_rtB v hv
  refine ⟨b, hp, fun fuel rest hf => ?_⟩
  rw [hd fuel rest hf, D_eq_self v hn]

set_option maxRecDepth 10000 in
/-- **C1 counterexample**: a structure of 256 null fields is within the
encoder's accepted size range and packs successfully (to `STRUCT_16`, two
size bytes, no signature byte, 256 null markers), but decoding those very
bytes fails: the decoder consumes one field marker as the missing signature
byte and runs off the end of the buffer instead of returning the value. -/
theorem claim_C1_refuted :
    (packable 300 true dId (.struct 78 (List.replicate 256 .null)) []).2 [] =
      .ok () (221 :: 1 :: 0 :: List.replicate 256 192) ∧
    unpack 300 false false hId (221 :: 1 :: 0 :: List.replicate 256 192) =
      .error .outOfBounds :=
  ⟨rfl, rfl⟩

/-- **C1 witness**: the amended round trip at a concrete value. -/
theorem claim_C1_witness :
    rtB (Value.int 7) = true ∧ noUndefB (Value.int 7) = true ∧
    (∃ b : List Nat, PackTo (Value.int 7) b ∧
      ∀ (fuel : Nat) (rest : Buf), dN (Value.int 7) ≤ fuel →
        unpack fuel false false hId (b ++ rest) = .ok (Value.int 7, rest)) :=
  ⟨by simp [rtB], by simp [noUndefB],
    claim_C1 (Value.int 7) (by simp [rtB]) (by simp [noUndefB])⟩

/-- **C2**: `packStructHeader` on field count `n` and a one-byte signature
emits the tiny-struct marker with the size nibble followed by the signature
for `n < 16`; `STRUCT_8`, the size byte, then the signature for
`16 ≤ n < 256`; `STRUCT_16` and the two big-endian size bytes with no
signature byte for `256 ≤ n < 65536`; and fails with the encode error for
`n ≥ 65536`, writing nothing. -/
theorem claim_C2 (n sig : Nat) (ch : Ch) (hsig : sig < 256) :
    (n < 16 →
      packStructHeader n sig ch = .ok () (ch ++ [TINY_STRUCT ||| n, sig])) ∧
    (16 ≤ n → n < 256 →
      packStructHeader n sig ch = .ok () (ch ++ [STRUCT_8, n, sig])) ∧
    (256 ≤ n → n < 65536 →
      packStructHeader n sig ch =
        .ok () (ch ++ [STRUCT_16, n / 256, n % 256])) ∧
    (65536 ≤ n →
      packStructHeader n sig ch =
        .err (.protocolError
          ("Structures of size " ++ toString n ++ " are not supported")) ch) := by
  refine ⟨?_, ?_, ?_, ?_⟩
  · intro c1
    have hl := lor_tiny_struct n c1
    simp [packStructHeader, pseq, writeUInt8, if_pos c1, hl,
      Nat.mod_eq_of_lt (show 176 + n < 256 by omega), Nat.mod_eq_of_lt hsig]
  · intro c1 c2
    simp [packStructHeader, pseq, writeUInt8, if_neg (show ¬ n < 16 by omega),
      if_pos c2, Nat.mod_eq_of_lt c2, Nat.mod_eq_of_lt hsig, STRUCT_8]
  · intro c1 c2
    simp [packStructHeader, pseq, writeUInt8, if_neg (show ¬ n < 16 by omega),
      if_neg (show ¬ n < 256 by omega), if_pos c2,
      Nat.mod_eq_of_lt (show n / 256 < 256 by omega), STRUCT_16]
  · intro c1
    simp [packStructHeader, if_neg (show ¬ n < 16 by omega),
      if_neg (show ¬ n < 256 by omega), if_neg (show ¬ n < 65536 by omega)]

/-- **C2 witness**: the four branches at concrete field counts. -/
theorem claim_C2_witness :
    (2 : Nat) < 256 ∧
    ((3 < 16 →
      packStructHeader 3 2 [] = .ok () ([] ++ [TINY_STRUCT ||| 3, 2])) ∧
    (16 ≤ 3 → 3 < 256 →
      packStructHeader 3 2 [] = .ok () ([] ++ [STRUCT_8, 3, 2])) ∧
    (256 ≤ 3 → 3 < 65536 →
      packStructHeader 3 2 [] =
        .ok () ([] ++ [STRUCT_16, 3 / 256, 3 % 256])) ∧
    (65536 ≤ 3 →
      packStructHeader 3 2 [] =
        .err (.protocolError
          ("Structures of size " ++ toString 3 ++ " are not supported")) [])) :=
  ⟨by decide, claim_C2 3 2 [] (by decide)⟩

/-- **C3**: for every 64-bit signed integer, `packInteger` emits exactly the
narrowest form the spec's width table describes (`packIntegerSpec`), and the
four literal examples hold: `pack(127)` is `7F`, `pack(128)` is `C9 00 80`,
`pack(-16)` is `F0`, and `pack(-17)` is `C8 EF`. -/
theorem claim_C3 (i : Int) (h1 : -9223372036854775808 ≤ i)
    (h2 : i < 9223372036854775808) (ch : Ch) :
    packInteger i ch = .ok () (ch ++ packIntegerSpec i) ∧
    packInteger 127 [] = .ok () [0x7f] ∧
    packInteger 128 [] = .ok () [0xc9, 0x00, 0x80] ∧
    packInteger (-16) [] = .ok () [0xf0] ∧
    packInteger (-17) [] = .ok () [0xc8, 0xef] :=
  ⟨packInteger_eq_spec i h1 h2 ch, rfl, rfl, rfl, rfl⟩

/-- **C3 witness**: the narrowest-form equation at a concrete integer. -/
theorem claim_C3_witness :
    -9223372036854775808 ≤ (54321 : Int) ∧ (54321 : Int) < 9223372036854775808 ∧
    (packInteger 54321 [] = .ok () ([] ++ packIntegerSpec 54321) ∧
    packInteger 127 [] = .ok () [0x7f] ∧
    packInteger 128 [] = .ok () [0xc9, 0x00, 0x80] ∧
    packInteger (-16) [] = .ok () [0xf0] ∧
    packInteger (-17) [] = .ok () [0xc8, 0xef]) :=
  ⟨by decide, by decide, claim_C3 54321 (by decide) (by decide) []⟩

/-- **C4**: the map branch of `packable` counts its header size over the
entries with defined values before any pair is written; a round-trippable
map decodes back to itself with exactly the undefined-valued entries
removed (kept entries in original order, explicit nulls preserved), and a
round-trippable list decodes back to a list of the same length with every
`undefined` element replaced by null and all other elements preserved. -/
theorem claim_C4 (es : List (List Nat × Value)) (xs : List Value)
    (hm : rtB (.map es) = true)
    (hm2 : ∀ p ∈ es, isUndef p.2 = true ∨ noUndefB p.2 = true)
    (hl : rtB (.list xs) = true)
    (hl2 : ∀ x ∈ xs, isUndef x = true ∨ noUndefB x = true) :
    (∀ (fuel : Nat) (ch : Ch), packable (fuel + 1) true dId (.map es) ch =
      (ch, fun c =>
        match packMapHeader (countDefined es) c with
        | .ok _ c1 => packPairs fuel true dId es c1
        | .err e c1 => .err e c1)) ∧
    (∃ b : List Nat, PackTo (.map es) b ∧
      ∀ (fuel : Nat) (rest : Buf), dN (.map es) ≤ fuel →
        unpack fuel false false hId (b ++ rest) =
          .ok (.map (es.filter (fun p => !isUndef p.2)), rest)) ∧
    (∃ b : List Nat, PackTo (.list xs) b ∧
      (xs.map (fun x => if isUndef x then Value.null else x)).length =
        xs.length ∧
      ∀ (fuel : Nat) (rest : Buf), dN (.list xs) ≤ fuel →
        unpack fuel false false hId (b ++ rest) =
          .ok (.list (xs.map (fun x => if isUndef x then Value.null else x)),
            rest)) := by
  refine ⟨fun fuel ch => rfl, ?_, ?_⟩
  · obtain ⟨b, hp, hd⟩ := rt_of_rtB (.map es) hm
    refine ⟨b, hp, fun fuel rest hf => ?_⟩
    rw [hd fuel rest hf]
    simp only [D]
    rw [DPairs_filter es hm2]
  · obtain ⟨b, hp, hd⟩ := rt_of_rtB (.list xs) hl
    refine ⟨b, hp, List.length_map xs _, fun fuel rest hf => ?_⟩
    rw [hd fuel rest hf]
    simp only [D]
    rw [DElems_map xs hl2]

/-- **C4 witness**: a concrete map with an undefined entry and a concrete
list with an undefined element. -/
theorem claim_C4_witness :
    rtB (.map [([97], Value.undef), ([98], Value.null)]) = true ∧
    (∀ p ∈ [([97], Value.undef), ([98], Value.null)],
      isUndef p.2 = true ∨ noUndefB p.2 = true) ∧
    rtB (.list [Value.undef, Value.int 1]) = true ∧
    (∀ x ∈ [Value.undef, Value.int 1],
      isUndef x = true ∨ noUndefB x = true) ∧
    ((∀ (fuel : Nat) (ch : Ch),
      packable (fuel + 1) true dId (.map [([97], Value.undef), ([98], Value.null)]) ch =
      (ch, fun c =>
        match packMapHeader
            (countDefined [([97], Value.undef), ([98], Value.null)]) c with
        | .ok _ c1 =>
            packPairs fuel true dId [([97], Value.undef), ([98], Value.null)] c1
        | .err e c1 => .err e c1)) ∧
    (∃ b : List Nat, PackTo (.map [([97], Value.undef), ([98], Value.null)]) b ∧
      ∀ (fuel : Nat) (rest : Buf),
        dN (.map [([97], Value.undef), ([98], Value.null)]) ≤ fuel →
        unpack fuel false false hId (b ++ rest) =
          .ok (.map ([([97], Value.undef), ([98], Value.null)].filter
            (fun p => !isUndef p.2)), rest)) ∧
    (∃ b : List Nat, PackTo (.list [Value.undef, Value.int 1]) b ∧
      ([Value.undef, Value.int 1].map
        (fun x => if isUndef x then Value.null else x)).length =
        [Value.undef, Value.int 1].length ∧
      ∀ (fuel : Nat) (rest : Buf), dN (.list [Value.undef, Value.int 1]) ≤ fuel →
        unpack fuel false false hId (b ++ rest) =
          .ok (.list ([Value.undef, Value.int 1].map
            (fun x => if isUndef x then Value.null else x)), rest))) := by
  have hm : rtB (.map [([97], Value.undef), ([98], Value.null)]) = true := by
    simp [rtB, rtPairs, wfStr, isUndef]
  have hm2 : ∀ p ∈ [([97], Value.undef), ([98], Value.null)],
      isUndef p.2 = true ∨ noUndefB p.2 = true := by
    intro p hp
    rcases List.mem_cons.mp hp with rfl | hp2
    · exact Or.inl (by simp [isUndef])
    · rcases List.mem_cons.mp hp2 with rfl | hp3
      · exact Or.inr (by simp [noUndefB])
      · cases hp3
  have hl : rtB (.list [Value.undef, Value.int 1]) = true := by
    simp [rtB, rtElems, isUndef]
  have hl2 : ∀ x ∈ [Value.undef, Value.int 1],
      isUndef x = true ∨ noUndefB x = true := by
    intro x hx
    rcases List.mem_cons.mp hx with rfl | hx2
    · exact Or.inl (by simp [isUndef])
    · rcases List.mem_cons.mp hx2 with rfl | hx3
      · exact Or.inr (by simp [noUndefB])
      · cases hx3
  exact ⟨hm, hm2, hl, hl2,
    claim_C4 [([97], Value.undef), ([98], Value.null)] [Value.undef, Value.int 1]
      hm hm2 hl hl2⟩

/-- **C5**: decoding an integer encoding returns the value through the
policy flags in source order — big-integer if `useBigInt`, else saturating
host number if `disableLosslessIntegers`, else the I64 itself
(`integerPolicySpec`) — while a `FLOAT_64` encoding always decodes to the
host double of the same bits, unaffected by either flag. -/
theorem claim_C5 (g : Nat) (d u : Bool) (i : Int)
    (h1 : -9223372036854775808 ≤ i) (h2 : i < 9223372036854775808)
    (bits : Nat) (hb : bits < 18446744073709551616) (rest : Buf) :
    unpack (g + 1) d u hId (packIntegerSpec i ++ rest) =
      .ok (integerPolicySpec d u i, rest) ∧
    unpack (g + 1) d u hId (FLOAT_64 :: (be8 bits ++ rest)) =
      .ok (.float bits, rest) :=
  ⟨unpack_packIntegerSpec g d u hId i h1 h2 rest,
   unpack_float g d u hId bits hb rest⟩

/-- **C5 witness**: the policy at a concrete integer and float. -/
theorem claim_C5_witness :
    -9223372036854775808 ≤ (5 : Int) ∧ (5 : Int) < 9223372036854775808 ∧
    (9 : Nat) < 18446744073709551616 ∧
    (unpack 1 true true hId (packIntegerSpec 5 ++ []) =
      .ok (integerPolicySpec true true 5, []) ∧
    unpack 1 true true hId (FLOAT_64 :: (be8 9 ++ [])) = .ok (.float 9, [])) :=
  ⟨by decide, by decide, by decide,
   claim_C5 0 true true 5 (by decide) (by decide) 9 (by decide) []⟩

/-- **C6**: with the byte-arrays-supported flag cleared by
`disableByteArrays`, packing a byte array fails with the `ProtocolError`
and writes nothing: the `packable` call leaves the channel unchanged, and
invoking the returned closure raises the error with the invocation channel
unchanged. -/
theorem claim_C6 (fuel : Nat) (b0 : Bool) (bs : List Int) (ch c : Ch) :
    (packable (fuel + 1) (disableByteArrays b0) dId (.bytes bs) ch).1 = ch ∧
    (packable (fuel + 1) (disableByteArrays b0) dId (.bytes bs) ch).2 c =
      .err (.protocolError
        "Byte arrays are not supported by the database this driver is connected to")
        c :=
  ⟨rfl, rfl⟩

/-- **C7**: a dehydration hook that throws does not raise inside `packable`
itself — the call returns normally with the channel unchanged and the
exception deferred into the returned closure, which raises it at its
invocation point before any write; a hydration hook that throws during
structure decoding propagates immediately out of `unpackStructWithSize`. -/
theorem claim_C7 (fuel g : Nat) (bas d u : Bool) (dh : DHook) (hh : HHook)
    (x : Value) (ex : String) (hdx : dh x = .error ex)
    (sig size : Nat) (fields : List Value) (exh : String)
    (hhx : hh (.struct sig fields) = .error exh)
    (buf1 buf2 : Buf)
    (hfields : unpackListWithSize g d u hh size buf1 = .ok (fields, buf2)) :
    (∀ ch : Ch, packable (fuel + 1) bas dh x ch = (ch, pthrow (.hookError ex))) ∧
    (∀ c : Ch, pthrow (.hookError ex) c = .err (.hookError ex) c) ∧
    unpackStructWithSize (g + 1) d u hh size (sig :: buf1) =
      .error (.hookError exh) := by
  refine ⟨fun ch => ?_, fun c => rfl, ?_⟩
  · simp only [packable, hdx]
  · simp only [unpackStructWithSize, readUInt8, hfields, hhx]

/-- A dehydration hook that always throws. -/
def dBoom : DHook := fun _ => .error "boom"

/-- A hydration hook that always throws. -/
def hBoom : HHook := fun _ => .error "hiss"

/-- **C7 witness**: the deferral and the immediate propagation at concrete
hooks. -/
theorem claim_C7_witness :
    dBoom Value.null = .error "boom" ∧
    hBoom (.struct 0 []) = .error "hiss" ∧
    unpackListWithSize 1 false false hBoom 0 [] = .ok ([], []) ∧
    ((∀ ch : Ch, packable 1 true dBoom Value.null ch =
      (ch, pthrow (.hookError "boom"))) ∧
    (∀ c : Ch, pthrow (.hookError "boom") c = .err (.hookError "boom") c) ∧
    unpackStructWithSize 2 false false hBoom 0 (0 :: []) =
      .error (.hookError "hiss")) :=
  ⟨rfl, rfl, rfl,
   claim_C7 0 1 true false false dBoom hBoom Value.null "boom" rfl 0 0 [] "hiss"
     rfl [] [] rfl⟩

/-- **C8**: a marker outside the recognized set falls through the
interpretation cascade and raises the unknown-marker protocol error, whose
rendered message carries the marker in hexadecimal; and no recognized
marker ever reaches that error — whenever `unpack` fails with it, the
marker it names is unrecognized. -/
theorem claim_C8 (fuel : Nat) (d u : Bool) (m : Nat) (rest : Buf)
    (hm : recognizedMarker m = false) :
    unpack (fuel + 1) d u hId (m :: rest) = .error (.unknownMarker m) ∧
    renderUErr (.unknownMarker m) =
      "Unknown packed value with marker " ++ (Nat.toDigits 16 m).asString ∧
    (∀ (buf : Buf) (k : Nat),
      unpack (fuel + 1) d u hId buf = .error (.unknownMarker k) →
        recognizedMarker k = false) :=
  ⟨unpack_unrecognized fuel d u hId m rest hm, rfl,
   fun buf k h => (unpack_unknown_unrecognized (fuel + 1)).1 d u buf k h⟩

/-- **C8 witness**: the unrecognized marker `0xc7`. -/
theorem claim_C8_witness :
    recognizedMarker 199 = false ∧
    (unpack 1 false false hId (199 :: []) = .error (.unknownMarker 199) ∧
    renderUErr (.unknownMarker 199) =
      "Unknown packed value with marker " ++ (Nat.toDigits 16 199).asString ∧
    (∀ (buf : Buf) (k : Nat),
      unpack 1 false false hId buf = .error (.unknownMarker k) →
        recognizedMarker k = false)) :=
  ⟨by decide, claim_C8 0 false false 199 [] (by decide)⟩

/-- **C9**: for sizes in the 16-bit branch, the high size byte written
without a `% 256` mask is `n / 256`, which is below 256 and equals
`(n >>> 8) &&& 0xFF`, so `packString` and `packMapHeader` emit exactly the
marker followed by the big-endian unsigned 16-bit size (`be16spec`): the
missing mask never changes the emitted bytes. -/
theorem claim_C9 (n : Nat) (h1 : 256 ≤ n) (h2 : n < 65536) (ch : Ch)
    (s : List Nat) (hlen : s.length = n) (hb : ∀ b ∈ s, b < 256) :
    n / 256 < 256 ∧
    n / 256 = (n >>> 8) &&& 255 ∧
    packString s ch = .ok () (ch ++ STRING_16 :: (be16spec n ++ s)) ∧
    packMapHeader n ch = .ok () (ch ++ MAP_16 :: be16spec n) := by
  have hhi : n / 256 < 256 := by omega
  have hmask : (n >>> 8) &&& 255 = n / 256 := by
    rw [and255_eq_mod, shiftRight8_eq_div]
    omega
  refine ⟨hhi, hmask.symm, ?_, ?_⟩
  · simp only [packString, hlen, be16spec, hmask, and255_eq_mod]
    rw [if_neg (show ¬ n < 16 by omega), if_neg (show ¬ n < 256 by omega),
      if_pos h2]
    simp [pseq, writeUInt8, writeBytes, map_mod256_eq s hb, STRING_16,
      Nat.mod_eq_of_lt hhi]
  · simp only [packMapHeader, be16spec, hmask, and255_eq_mod]
    rw [if_neg (show ¬ n < 16 by omega), if_neg (show ¬ n < 256 by omega),
      if_pos h2]
    simp [pseq, writeUInt8, MAP_16, Nat.mod_eq_of_lt hhi]

/-- **C9 witness**: the 16-bit branch at size 300. -/
theorem claim_C9_witness :
    256 ≤ (300 : Nat) ∧ (300 : Nat) < 65536 ∧
    (List.replicate 300 7).length = 300 ∧
    (∀ b ∈ List.replicate 300 7, b < 256) ∧
    ((300 : Nat) / 256 < 256 ∧
    (300 : Nat) / 256 = (300 >>> 8) &&& 255 ∧
    packString (List.replicate 300 7) [] =
      .ok () ([] ++ STRING_16 :: (be16spec 300 ++ List.replicate 300 7)) ∧
    packMapHeader 300 [] = .ok () ([] ++ MAP_16 :: be16spec 300)) :=
  ⟨by decide, by decide, List.length_replicate 300 7,
   by intro b hbm; rw [List.eq_of_mem_replicate hbm]; decide,
   claim_C9 300 (by decide) (by decide) [] (List.replicate 300 7)
     (List.length_replicate 300 7)
     (by intro b hbm; rw [List.eq_of_mem_replicate hbm]; decide)⟩

/-- **C10**: the `packable` call itself writes nothing — it returns the
channel it was given unchanged for every input and hook, and the struct
branch's eager `packFields` preparation loop likewise leaves the channel
unchanged; writes happen only when the returned closure is invoked. -/
theorem claim_C10 (fuel : Nat) (bas : Bool) (dh : DHook) (x : Value)
    (fs : List Value) (ch : Ch) :
    (packable fuel bas dh x ch).1 = ch ∧
    (packFields fuel bas dh fs ch).1 = ch :=
  ⟨(packable_packFields_fst fuel bas dh).1 x ch,
   (packable_packFields_fst fuel bas dh).2 fs ch⟩

end PackStream
